import Mathlib

/-!
# Verification of the SQL Schema Extraction & Cross-Dialect Normalization Engine

Shallow embedding of the core parsing/normalization routines of the
`SpingBootGraphQLGenerator` repository (`src/js/TableParser.js`,
`src/js/SQLParser.js`, `src/js/GraphQLSpringGenerator.js`), together with
proofs and refutations of the specified properties.

JavaScript strings are modelled as `List Char` (`Str`); JavaScript numbers
appearing as parsed SQL values are modelled as exact scaled decimals (all literals involved are
decimal literals); JavaScript's loose (`==`) numeric comparisons on strings
are modelled through an explicit string-to-number conversion.
-/

set_option maxHeartbeats 1000000

/-- JavaScript strings are modelled as lists of characters. -/
abbrev Str := List Char

/-- The ASCII whitespace characters recognized by the JavaScript `\s` class and
`String.prototype.trim` (the inputs involved never contain the further Unicode
space characters). -/
def isWsChar (c : Char) : Bool :=
  c = ' ' || c = '\t' || c = '\n' || c = '\r' || c = '\x0b' || c = '\x0c'

/-- A JavaScript word character (`\w`, i.e. `[A-Za-z0-9_]`). -/
def isWordChar (c : Char) : Bool :=
  ('a' ≤ c && c ≤ 'z') || ('A' ≤ c && c ≤ 'Z') || ('0' ≤ c && c ≤ '9') || c = '_'

/-- ASCII decimal digit. -/
def isDigitChar (c : Char) : Bool :=
  '0' ≤ c && c ≤ '9'

/-- `String.prototype.trim`. -/
def jsTrim (s : Str) : Str :=
  (((s.dropWhile (fun c => isWsChar c)).reverse.dropWhile (fun c => isWsChar c)).reverse)

/-- `String.prototype.toUpperCase` (ASCII). -/
def jsToUpper (s : Str) : Str := s.map Char.toUpper

/-- `String.prototype.toLowerCase` (ASCII). -/
def jsToLower (s : Str) : Str := s.map Char.toLower

/-- `String.prototype.includes` (substring containment). -/
def jsIncludes (s sub : Str) : Bool :=
  if sub.isPrefixOf s then true
  else
    match s with
    | [] => false
    | _ :: t => jsIncludes t sub

/-- `String.prototype.startsWith`. -/
def jsStartsWith (s pre : Str) : Bool := pre.isPrefixOf s

/-- `String.prototype.endsWith`. -/
def jsEndsWith (s suf : Str) : Bool := suf.reverse.isPrefixOf s.reverse

/-- Worker for `jsSplit`: the fuel argument (initially the string length)
only bounds the recursion and is never exhausted, since every step consumes at
least one character. -/
def splitOnSub (sep : Str) (fuel : Nat) (s : Str) (acc : Str) : List Str :=
  match fuel, s with
  | _, [] => [acc.reverse]
  | 0, s => [(acc.reverse ++ s)]
  | fuel + 1, c :: t =>
    if sep ≠ [] ∧ sep.isPrefixOf (c :: t) then
      acc.reverse :: splitOnSub sep fuel ((c :: t).drop sep.length) []
    else
      splitOnSub sep fuel t (c :: acc)

/-- `String.prototype.split` with a non-empty string separator
(non-overlapping, left to right). -/
def jsSplit (s sep : Str) : List Str := splitOnSub sep s.length s []

/-- Worker for `replaceAllSub` (fuel as in `splitOnSub`). -/
def replaceAllGo (pat rep : Str) (fuel : Nat) (s : Str) : Str :=
  match fuel, s with
  | _, [] => []
  | 0, s => s
  | fuel + 1, c :: t =>
    if pat ≠ [] ∧ pat.isPrefixOf (c :: t) then
      rep ++ replaceAllGo pat rep fuel ((c :: t).drop pat.length)
    else
      c :: replaceAllGo pat rep fuel t

/-- Replace every (non-overlapping, left-to-right) occurrence of `pat` by
`rep`, as `String.prototype.replace` with a global pattern does. -/
def replaceAllSub (pat rep : Str) (s : Str) : Str :=
  replaceAllGo pat rep s.length s

/-- Replace the first occurrence of `pat` by `rep` (as
`String.prototype.replace` with a plain-string pattern does); the string is
unchanged when `pat` does not occur. -/
def replaceFirstSub (pat rep : Str) (s : Str) : Str :=
  match s with
  | [] => []
  | c :: t =>
    if pat ≠ [] ∧ pat.isPrefixOf (c :: t) then
      rep ++ (c :: t).drop pat.length
    else
      c :: replaceFirstSub pat rep t

/-- `String.prototype.substring(start)` (negative start clamps to 0). -/
def jsSubstringFrom (s : Str) (start : Int) : Str := s.drop start.toNat

/-- `String.prototype.substring(0, stop)` (negative stop clamps to 0). -/
def jsSubstringTo (s : Str) (stop : Int) : Str := s.take stop.toNat

/-- Collapse every run of whitespace into a single space: the effect of
`replace(/\s+/g, ' ')`. -/
def squeezeSpaces : Str → Str
  | [] => []
  | [c] => [c]
  | a :: b :: t =>
    if a = ' ' ∧ b = ' ' then squeezeSpaces (b :: t)
    else a :: squeezeSpaces (b :: t)

/-- `replace(/\s+/g, ' ')`. -/
def collapseWs (s : Str) : Str :=
  squeezeSpaces (s.map (fun c => if isWsChar c then ' ' else c))

/-- Value of a list of decimal digits. -/
def natOfDigits (ds : Str) : Nat :=
  ds.foldl (fun acc c => acc * 10 + (c.toNat - '0'.toNat)) 0

/-- A JavaScript number produced by converting a decimal literal: the exact
rational value `mantissa * 10 ^ exp10`.  (An explicit scaled-integer
representation is used instead of `ℚ` so that concrete computations reduce in
the kernel; the representation is determined by the literal's digits, and
value-level comparisons go through `jsNumValEq` below.) -/
structure JSNumber where
  mantissa : Int
  exp10 : Int
deriving DecidableEq, Repr

/-- Value-level equality of two `JSNumber`s (`a = b` as rational numbers). -/
def jsNumValEq (a b : JSNumber) : Bool :=
  let m := min a.exp10 b.exp10
  a.mantissa * (10 : Int) ^ (a.exp10 - m).toNat = b.mantissa * (10 : Int) ^ (b.exp10 - m).toNat

/-- `Number(string)` on the decimal fragment of JavaScript's grammar
(optional sign, digits with optional fraction, optional exponent; a
whitespace-only string converts to `0`).  Returns `none` exactly when the
conversion yields `NaN`; this models the `isNaN`/`Number` pair used by the
source for the decimal literals that occur in SQL scripts (the hexadecimal
and `Infinity` forms never occur there). -/
def jsNumberOfString (s : Str) : Option JSNumber :=
  let t := jsTrim s
  if t = [] then some ⟨0, 0⟩
  else
    let (sign, t1) :=
      match t with
      | '+' :: r => ((1 : Int), r)
      | '-' :: r => ((-1 : Int), r)
      | r => ((1 : Int), r)
    let ds1 := t1.takeWhile (fun c => isDigitChar c)
    let r1 := t1.drop ds1.length
    let (ds2, r2) :=
      match r1 with
      | '.' :: r =>
        (r.takeWhile (fun c => isDigitChar c), r.drop (r.takeWhile (fun c => isDigitChar c)).length)
      | r => (([] : Str), r)
    if ds1 = [] ∧ ds2 = [] then none
    else
      let mantissa : Int := sign * (natOfDigits (ds1 ++ ds2) : Int)
      match r2 with
      | [] => some ⟨mantissa, -(ds2.length : Int)⟩
      | e :: r3 =>
        if e = 'e' ∨ e = 'E' then
          let (esign, r4) :=
            match r3 with
            | '+' :: r => ((1 : Int), r)
            | '-' :: r => ((-1 : Int), r)
            | r => ((1 : Int), r)
          let eds := r4.takeWhile (fun c => isDigitChar c)
          if eds = [] ∨ r4.drop eds.length ≠ [] then none
          else
            let ev : Int := esign * (natOfDigits eds : Int)
            some ⟨mantissa, ev - (ds2.length : Int)⟩
        else none

/-- JavaScript's loose equality `s == n` between a string and a number. -/
def jsLooseEqNat (s : Str) (n : Nat) : Bool :=
  match jsNumberOfString s with
  | some q => jsNumValEq q ⟨(n : Int), 0⟩
  | none => false

/-- JavaScript's loose comparison `s > 0` between a string and `0`. -/
def jsLooseGtZero (s : Str) : Bool :=
  match jsNumberOfString s with
  | some q => 0 < q.mantissa
  | none => false

/-!
## `TableParser.extractRowStrings` (src/js/TableParser.js, lines 84–155)

A single left-to-right character scan over the `VALUES` section of an INSERT
statement.  State: the rows emitted so far, the buffer of the row being
captured, the two quote flags, the backslash-escape flag, and the
parenthesis-nesting depth (a JavaScript number, hence `Int`: an unmatched
closing parenthesis drives it negative). -/
def extractGo (rows : List Str) (buf : Str) (inS inD esc : Bool) (depth : Int)
    (s : Str) : List Str :=
  match s with
  | [] => rows
  | c :: rest =>
    if esc then
      extractGo rows (buf ++ [c]) inS inD false depth rest
    else if c = '\\' then
      extractGo rows (buf ++ [c]) inS inD true depth rest
    else if c = '\'' ∧ inD = false then
      match rest with
      | d :: rest2 =>
        if inS = true ∧ d = '\'' then
          extractGo rows (buf ++ [c, d]) inS inD esc depth rest2
        else
          extractGo rows (buf ++ [c]) (!inS) inD esc depth (d :: rest2)
      | [] => extractGo rows (buf ++ [c]) (!inS) inD esc depth []
    else if c = '"' ∧ inS = false then
      match rest with
      | d :: rest2 =>
        if inD = true ∧ d = '"' then
          extractGo rows (buf ++ [c, d]) inS inD esc depth rest2
        else
          extractGo rows (buf ++ [c]) inS (!inD) esc depth (d :: rest2)
      | [] => extractGo rows (buf ++ [c]) inS (!inD) esc depth []
    else if c = '(' ∧ inS = false ∧ inD = false then
      extractGo rows ((if depth = 0 then [] else buf) ++ [c]) inS inD esc (depth + 1) rest
    else if c = ')' ∧ inS = false ∧ inD = false then
      let buf1 := buf ++ [c]
      if depth - 1 = 0 then
        let entry :=
          if buf1.head? = some '(' ∧ buf1.getLast? = some ')' then
            (buf1.drop 1).dropLast
          else buf1
        extractGo (rows ++ [entry]) [] inS inD esc (depth - 1) rest
      else
        extractGo rows buf1 inS inD esc (depth - 1) rest
    else
      extractGo rows (buf ++ [c]) inS inD esc depth rest

/-- `TableParser.extractRowStrings`. -/
def extractRowStrings (valueSection : Str) : List Str :=
  extractGo [] [] false false false 0 valueSection

/-!
## `TableParser.parseRow` (src/js/TableParser.js, lines 173–267)
-/

/-- The typed scalar values produced by `parseRow`. -/
inductive JSValue where
  | vnull : JSValue
  | vbool : Bool → JSValue
  | vnum : JSNumber → JSValue
  | vstr : Str → JSValue
deriving DecidableEq, Repr

/-- Unescape `\"`, `\'` and `\\` (the effect of `replace(/\\(["'\\])/g, '$1')`,
global, left-to-right). -/
def unescBackslashed : Str → Str
  | [] => []
  | '\\' :: c :: t =>
    if c = '"' ∨ c = '\'' ∨ c = '\\' then c :: unescBackslashed t
    else '\\' :: unescBackslashed (c :: t)
  | c :: t => c :: unescBackslashed t

/-- The `pushValue` classifier inside `parseRow`: converts one raw
comma-separated token to a typed value. -/
def parseValue (raw : Str) : JSValue :=
  let trimmed := jsTrim raw
  if trimmed = [] then JSValue.vstr []
  else if jsToLower trimmed = ['n', 'u', 'l', 'l'] then JSValue.vnull
  else if jsToLower trimmed = ['t', 'r', 'u', 'e'] then JSValue.vbool true
  else if jsToLower trimmed = ['f', 'a', 'l', 's', 'e'] then JSValue.vbool false
  else if trimmed.head? = some '\'' ∧ trimmed.getLast? = some '\'' then
    JSValue.vstr (unescBackslashed (replaceAllSub ['\'', '\''] ['\''] ((trimmed.drop 1).dropLast)))
  else if trimmed.head? = some '"' ∧ trimmed.getLast? = some '"' then
    JSValue.vstr
      (replaceAllSub ['\\', '"'] ['"']
        (replaceAllSub ['\\', '\\'] ['\\'] (replaceAllSub ['\'', '\''] ['\''] ((trimmed.drop 1).dropLast))))
  else
    match jsNumberOfString trimmed with
    | some q => JSValue.vnum q
    | none => JSValue.vstr trimmed

/-- The character scan of `parseRow`: split on top-level commas with the same
quote/escape state machine, pushing each completed token through the
classifier. -/
def parseRowGo (values : List JSValue) (current : Str) (inS inD esc : Bool)
    (s : Str) : List JSValue :=
  match s with
  | [] => values ++ [parseValue current]
  | c :: rest =>
    if esc then
      parseRowGo (values) (current ++ [c]) inS inD false rest
    else if c = '\\' then
      parseRowGo values (current ++ [c]) inS inD true rest
    else if c = '\'' ∧ inD = false then
      match rest with
      | d :: rest2 =>
        if inS = true ∧ d = '\'' then
          parseRowGo values (current ++ [c, d]) inS inD esc rest2
        else
          parseRowGo values (current ++ [c]) (!inS) inD esc (d :: rest2)
      | [] => parseRowGo values (current ++ [c]) (!inS) inD esc []
    else if c = '"' ∧ inS = false then
      match rest with
      | d :: rest2 =>
        if inD = true ∧ d = '"' then
          parseRowGo values (current ++ [c, d]) inS inD esc rest2
        else
          parseRowGo values (current ++ [c]) inS (!inD) esc (d :: rest2)
      | [] => parseRowGo values (current ++ [c]) inS (!inD) esc []
    else if c = ',' ∧ inS = false ∧ inD = false then
      parseRowGo (values ++ [parseValue current]) [] inS inD esc rest
    else
      parseRowGo values (current ++ [c]) inS inD esc rest

/-- `TableParser.parseRow`. -/
def parseRow (rowContent : Str) : List JSValue :=
  parseRowGo [] [] false false false rowContent

/-!
## Claim C1: row extraction over quote-protected group contents

A grammar of "group contents": character sequences that the scanner consumes
while inside a top-level `(...)` group without ever closing that group.
Quoted literals may contain arbitrary characters (commas, parentheses, the
other quote kind) via plain characters, backslash escapes and doubled quotes.
The side conditions on `head?` rule out the ambiguous juxtaposition of a
closing quote directly followed by another quote of the same kind, which the
scanner would instead read as a doubled (escaped) quote. -/

/-- A character with no special meaning for the row scanner. -/
def PlainCh (c : Char) : Prop :=
  c ≠ '\\' ∧ c ≠ '\'' ∧ c ≠ '"' ∧ c ≠ '(' ∧ c ≠ ')'

instance (c : Char) : Decidable (PlainCh c) := by
  unfold PlainCh; infer_instance

/-- Body of a single-quoted SQL literal, as consumed by the scanner while
`inSingle` holds: plain characters, backslash-escaped pairs, doubled
single quotes. -/
inductive SLit : Str → Prop where
  | nil : SLit []
  | plain {c : Char} {cs : Str} : c ≠ '\\' → c ≠ '\'' → SLit cs → SLit (c :: cs)
  | esc (c : Char) {cs : Str} : SLit cs → SLit ('\\' :: c :: cs)
  | dbl {cs : Str} : SLit cs → SLit ('\'' :: '\'' :: cs)

/-- Body of a double-quoted SQL literal, as consumed by the scanner while
`inDouble` holds. -/
inductive DLit : Str → Prop where
  | nil : DLit []
  | plain {c : Char} {cs : Str} : c ≠ '\\' → c ≠ '"' → DLit cs → DLit (c :: cs)
  | esc (c : Char) {cs : Str} : DLit cs → DLit ('\\' :: c :: cs)
  | dbl {cs : Str} : DLit cs → DLit ('"' :: '"' :: cs)

/-- Content of one top-level row group: what may legally stand between the
outer parentheses of a `(...)` group in a VALUES section. -/
inductive GroupContent : Str → Prop where
  | nil : GroupContent []
  | plain {c : Char} {cs : Str} : PlainCh c → GroupContent cs → GroupContent (c :: cs)
  | esc (c : Char) {cs : Str} : GroupContent cs → GroupContent ('\\' :: c :: cs)
  | squote {lit cs : Str} : SLit lit → GroupContent cs → cs.head? ≠ some '\'' →
      GroupContent ('\'' :: lit ++ '\'' :: cs)
  | dquote {lit cs : Str} : DLit lit → GroupContent cs → cs.head? ≠ some '"' →
      GroupContent ('"' :: lit ++ '"' :: cs)
  | paren {inner cs : Str} : GroupContent inner → GroupContent cs →
      GroupContent ('(' :: inner ++ ')' :: cs)

/-- The VALUES text formed by `n` parenthesized groups separated by `sep`. -/
def wrapGroups (sep : Str) : List Str → Str
  | [] => []
  | [g] => '(' :: g ++ [')']
  | g :: g2 :: gs => '(' :: g ++ ')' :: (sep ++ wrapGroups sep (g2 :: gs))

/-!
### Single-step characterizations of the scanner

The equation lemmas of `extractGo` are split on the shape of the remaining
input (because of the one-character lookahead for doubled quotes); the
following step lemmas restate each transition for an arbitrary remainder. -/

theorem extractGo_stepEsc (rows : List Str) (buf : Str) (inS inD : Bool) (d : Int)
    (c : Char) (X : Str) :
    extractGo rows buf inS inD true d (c :: X) =
      extractGo rows (buf ++ [c]) inS inD false d X := by
  cases X <;> simp [extractGo]

theorem extractGo_stepBackslash (rows : List Str) (buf : Str) (inS inD : Bool) (d : Int)
    (X : Str) :
    extractGo rows buf inS inD false d ('\\' :: X) =
      extractGo rows (buf ++ ['\\']) inS inD true d X := by
  cases X <;> simp [extractGo]

theorem extractGo_stepPlain (rows : List Str) (buf : Str) (inS inD : Bool) (d : Int)
    (c : Char) (X : Str) (h1 : c ≠ '\\') (h2 : ¬(c = '\'' ∧ inD = false))
    (h3 : ¬(c = '"' ∧ inS = false)) (h4 : ¬(c = '(' ∧ inS = false ∧ inD = false))
    (h5 : ¬(c = ')' ∧ inS = false ∧ inD = false)) :
    extractGo rows buf inS inD false d (c :: X) =
      extractGo rows (buf ++ [c]) inS inD false d X := by
  cases X <;> simp [extractGo, h1, h2, h3, h4, h5]

theorem extractGo_stepOpenS (rows : List Str) (buf : Str) (d : Int) (X : Str) :
    extractGo rows buf false false false d ('\'' :: X) =
      extractGo rows (buf ++ ['\'']) true false false d X := by
  cases X <;> simp [extractGo]

theorem extractGo_stepCloseS (rows : List Str) (buf : Str) (d : Int) (X : Str)
    (hX : X.head? ≠ some '\'') :
    extractGo rows buf true false false d ('\'' :: X) =
      extractGo rows (buf ++ ['\'']) false false false d X := by
  cases X with
  | nil => simp [extractGo]
  | cons x xs =>
    have hx : ¬(x = '\'') := by simpa using hX
    simp [extractGo, hx]

theorem extractGo_stepPairS (rows : List Str) (buf : Str) (d : Int) (X : Str) :
    extractGo rows buf true false false d ('\'' :: '\'' :: X) =
      extractGo rows (buf ++ ['\'', '\'']) true false false d X := by
  simp [extractGo]

theorem extractGo_stepOpenD (rows : List Str) (buf : Str) (d : Int) (X : Str) :
    extractGo rows buf false false false d ('"' :: X) =
      extractGo rows (buf ++ ['"']) false true false d X := by
  cases X <;> simp [extractGo]

theorem extractGo_stepCloseD (rows : List Str) (buf : Str) (d : Int) (X : Str)
    (hX : X.head? ≠ some '"') :
    extractGo rows buf false true false d ('"' :: X) =
      extractGo rows (buf ++ ['"']) false false false d X := by
  cases X with
  | nil => simp [extractGo]
  | cons x xs =>
    have hx : ¬(x = '"') := by simpa using hX
    simp [extractGo, hx]

theorem extractGo_stepPairD (rows : List Str) (buf : Str) (d : Int) (X : Str) :
    extractGo rows buf false true false d ('"' :: '"' :: X) =
      extractGo rows (buf ++ ['"', '"']) false true false d X := by
  simp [extractGo]

theorem extractGo_stepOpenParen (rows : List Str) (buf : Str) (d : Int) (X : Str) :
    extractGo rows buf false false false d ('(' :: X) =
      extractGo rows ((if d = 0 then [] else buf) ++ ['(']) false false false (d + 1) X := by
  cases X <;> simp [extractGo]

theorem extractGo_stepCloseParen (rows : List Str) (buf : Str) (d : Int) (X : Str)
    (hd : ¬(d - 1 = 0)) :
    extractGo rows buf false false false d (')' :: X) =
      extractGo rows (buf ++ [')']) false false false (d - 1) X := by
  cases X <;> simp [extractGo, hd]

theorem extractGo_stepCloseParenPush (rows : List Str) (buf : Str) (X : Str) :
    extractGo rows buf false false false 1 (')' :: X) =
      extractGo
        (rows ++ [if (buf ++ [')']).head? = some '(' ∧ (buf ++ [')']).getLast? = some ')' then
          ((buf ++ [')']).drop 1).dropLast else buf ++ [')']])
        [] false false false 0 X := by
  cases X <;> simp [extractGo]

theorem extractGo_plainRun (cs : Str) (h : ∀ c ∈ cs, PlainCh c) :
    ∀ (rows : List Str) (buf : Str) (d : Int) (rest : Str),
    extractGo rows buf false false false d (cs ++ rest) =
      extractGo rows (buf ++ cs) false false false d rest := by
  induction cs with
  | nil => intro rows buf d rest; simp
  | cons c t ih =>
    intro rows buf d rest
    obtain ⟨p1, p2, p3, p4, p5⟩ := h c (List.mem_cons_self c t)
    rw [List.cons_append,
      extractGo_stepPlain rows buf false false d c (t ++ rest) p1
        (fun hh => p2 hh.1) (fun hh => p3 hh.1) (fun hh => p4 hh.1) (fun hh => p5 hh.1),
      ih (fun x hx => h x (List.mem_cons_of_mem c hx))]
    simp

theorem extractGo_slitRun {lit : Str} (h : SLit lit) :
    ∀ (rows : List Str) (buf : Str) (d : Int) (rest : Str),
    extractGo rows buf true false false d (lit ++ rest) =
      extractGo rows (buf ++ lit) true false false d rest := by
  induction h with
  | nil => intro rows buf d rest; simp
  | @plain c cs h1 h2 hs ih =>
    intro rows buf d rest
    rw [List.cons_append,
      extractGo_stepPlain rows buf true false d c (cs ++ rest) h1
        (fun hh => h2 hh.1) (by simp) (by simp) (by simp),
      ih]
    simp
  | @esc c cs hs ih =>
    intro rows buf d rest
    rw [List.cons_append, List.cons_append, extractGo_stepBackslash,
      extractGo_stepEsc, ih]
    simp
  | @dbl cs hs ih =>
    intro rows buf d rest
    rw [List.cons_append, List.cons_append, extractGo_stepPairS, ih]
    simp

theorem extractGo_dlitRun {lit : Str} (h : DLit lit) :
    ∀ (rows : List Str) (buf : Str) (d : Int) (rest : Str),
    extractGo rows buf false true false d (lit ++ rest) =
      extractGo rows (buf ++ lit) false true false d rest := by
  induction h with
  | nil => intro rows buf d rest; simp
  | @plain c cs h1 h2 hs ih =>
    intro rows buf d rest
    rw [List.cons_append,
      extractGo_stepPlain rows buf false true d c (cs ++ rest) h1
        (by simp) (fun hh => h2 hh.1) (by simp) (by simp),
      ih]
    simp
  | @esc c cs hs ih =>
    intro rows buf d rest
    rw [List.cons_append, List.cons_append, extractGo_stepBackslash,
      extractGo_stepEsc, ih]
    simp
  | @dbl cs hs ih =>
    intro rows buf d rest
    rw [List.cons_append, List.cons_append, extractGo_stepPairD, ih]
    simp

theorem extractGo_gcRun {g : Str} (h : GroupContent g) :
    ∀ (rows : List Str) (buf : Str) (d : Int) (rest : Str), 1 ≤ d →
    rest.head? ≠ some '\'' → rest.head? ≠ some '"' →
    extractGo rows buf false false false d (g ++ rest) =
      extractGo rows (buf ++ g) false false false d rest := by
  induction h with
  | nil => intro rows buf d rest _ _ _; simp
  | @plain c cs hc hcs ih =>
    intro rows buf d rest hd h1 h2
    obtain ⟨p1, p2, p3, p4, p5⟩ := hc
    rw [List.cons_append,
      extractGo_stepPlain rows buf false false d c (cs ++ rest) p1
        (fun hh => p2 hh.1) (fun hh => p3 hh.1) (fun hh => p4 hh.1) (fun hh => p5 hh.1),
      ih rows (buf ++ [c]) d rest hd h1 h2]
    simp
  | @esc c cs hcs ih =>
    intro rows buf d rest hd h1 h2
    rw [List.cons_append, List.cons_append, extractGo_stepBackslash,
      extractGo_stepEsc, ih rows ((buf ++ ['\\']) ++ [c]) d rest hd h1 h2]
    simp
  | @squote lit cs hlit hcs hhd ih =>
    intro rows buf d rest hd h1 h2
    have hclose : (cs ++ rest).head? ≠ some '\'' := by
      cases cs with
      | nil => simpa using h1
      | cons x xs => simpa using hhd
    have hshape : ('\'' :: lit ++ '\'' :: cs) ++ rest =
        '\'' :: (lit ++ ('\'' :: (cs ++ rest))) := by simp
    rw [hshape, extractGo_stepOpenS, extractGo_slitRun hlit,
      extractGo_stepCloseS rows ((buf ++ ['\'']) ++ lit) d (cs ++ rest) hclose,
      ih rows (((buf ++ ['\'']) ++ lit) ++ ['\'']) d rest hd h1 h2]
    simp
  | @dquote lit cs hlit hcs hhd ih =>
    intro rows buf d rest hd h1 h2
    have hclose : (cs ++ rest).head? ≠ some '"' := by
      cases cs with
      | nil => simpa using h2
      | cons x xs => simpa using hhd
    have hshape : ('"' :: lit ++ '"' :: cs) ++ rest =
        '"' :: (lit ++ ('"' :: (cs ++ rest))) := by simp
    rw [hshape, extractGo_stepOpenD, extractGo_dlitRun hlit,
      extractGo_stepCloseD rows ((buf ++ ['"']) ++ lit) d (cs ++ rest) hclose,
      ih rows (((buf ++ ['"']) ++ lit) ++ ['"']) d rest hd h1 h2]
    simp
  | @paren inner cs hin hcs ihin ihcs =>
    intro rows buf d rest hd h1 h2
    have hd0 : ¬(d = 0) := by omega
    have hshape : ('(' :: inner ++ ')' :: cs) ++ rest =
        '(' :: (inner ++ (')' :: (cs ++ rest))) := by simp
    rw [hshape, extractGo_stepOpenParen, if_neg hd0,
      ihin rows (buf ++ ['(']) (d + 1) (')' :: (cs ++ rest)) (by omega) (by simp) (by simp),
      extractGo_stepCloseParen rows ((buf ++ ['(']) ++ inner) (d + 1) (cs ++ rest) (by omega),
      show d + 1 - 1 = d by omega,
      ihcs rows (((buf ++ ['(']) ++ inner) ++ [')']) d rest hd h1 h2]
    simp

theorem extractGo_groupStep {g : Str} (h : GroupContent g) (rows : List Str) (buf : Str)
    (rest : Str) :
    extractGo rows buf false false false 0 ('(' :: (g ++ ')' :: rest)) =
    extractGo (rows ++ [g]) [] false false false 0 rest := by
  rw [extractGo_stepOpenParen, if_pos rfl, show (0 : Int) + 1 = 1 by norm_num,
    extractGo_gcRun h rows ([] ++ ['(']) 1 (')' :: rest) le_rfl (by simp) (by simp),
    extractGo_stepCloseParenPush]
  have hlast : ((([] ++ ['(']) ++ g) ++ [')']).getLast? = some ')' := by
    rw [List.getLast?_concat]
  have hhead : ((([] ++ ['(']) ++ g) ++ [')']).head? = some '(' := by simp
  rw [if_pos ⟨hhead, hlast⟩]
  have hentry : (((([] ++ ['(']) ++ g) ++ [')']).drop 1).dropLast = g := by simp
  rw [hentry]
theorem extractGo_wrapRun (groups : List Str) (hg : ∀ g ∈ groups, GroupContent g)
    (sep post : Str) (hsep : ∀ c ∈ sep, PlainCh c) (hpost : ∀ c ∈ post, PlainCh c) :
    ∀ (rows : List Str) (buf : Str),
    extractGo rows buf false false false 0 (wrapGroups sep groups ++ post) = rows ++ groups := by
  induction groups with
  | nil =>
    intro rows buf
    have h := extractGo_plainRun post hpost rows buf 0 []
    simp only [List.append_nil] at h
    rw [show wrapGroups sep [] = [] from rfl]
    simp only [List.nil_append]
    rw [h]
    simp [extractGo]
  | cons g gs ih =>
    intro rows buf
    cases gs with
    | nil =>
      have hshape : wrapGroups sep [g] ++ post = '(' :: (g ++ ')' :: post) := by
        simp [wrapGroups]
      have h := extractGo_plainRun post hpost (rows ++ [g]) [] 0 []
      simp only [List.append_nil] at h
      rw [hshape, extractGo_groupStep (hg g (by simp)) rows buf post, h]
      simp [extractGo]
    | cons g2 gs2 =>
      have hshape : wrapGroups sep (g :: g2 :: gs2) ++ post =
          '(' :: (g ++ ')' :: (sep ++ (wrapGroups sep (g2 :: gs2) ++ post))) := by
        simp [wrapGroups]
      rw [hshape, extractGo_groupStep (hg g (by simp)) rows buf,
        extractGo_plainRun sep hsep (rows ++ [g]) [] 0 (wrapGroups sep (g2 :: gs2) ++ post),
        ih (fun x hx => hg x (List.mem_cons_of_mem g hx)) (rows ++ [g]) ([] ++ sep)]
      simp

/-- C1: for every input to `extractRowStrings` whose VALUES section consists of
`n` top-level parenthesized groups (parentheses at nesting depth 0 outside single-
and double-quoted regions) separated and surrounded by ordinary characters, the
function returns a list of exactly `n` strings, each being the corresponding
group's text with the outer parentheses removed — regardless of commas,
parentheses, or quote characters appearing inside quoted literals within the
groups. -/
theorem extractRowStrings_topLevelGroups
    (groups : List Str) (pre sep post : Str)
    (hg : ∀ g ∈ groups, GroupContent g)
    (hpre : ∀ c ∈ pre, PlainCh c) (hsep : ∀ c ∈ sep, PlainCh c)
    (hpost : ∀ c ∈ post, PlainCh c) :
    extractRowStrings (pre ++ (wrapGroups sep groups ++ post)) = groups ∧
    (extractRowStrings (pre ++ (wrapGroups sep groups ++ post))).length = groups.length := by
  have h : extractRowStrings (pre ++ (wrapGroups sep groups ++ post)) = groups := by
    unfold extractRowStrings
    rw [extractGo_plainRun pre hpre [] [] 0 (wrapGroups sep groups ++ post),
      extractGo_wrapRun groups hg sep post hsep hpost [] ([] ++ pre)]
    simp
  exact ⟨h, by rw [h]⟩

/-- Witness for C1: the VALUES text
`("O''Brien, (Jr)", 'a,(b'),(2,NULL);` contains two top-level groups; the first
holds a double-quoted literal containing a comma and parentheses and a
single-quoted literal containing a comma and a parenthesis.  `extractRowStrings`
returns exactly those two group bodies. -/
theorem extractRowStrings_topLevelGroups_witness :
    extractRowStrings
      (['(', '"', 'O', '\'', '\'', 'B', 'r', 'i', 'e', 'n', ',', ' ', '(', 'J', 'r', ')', '"',
        ',', ' ', '\'', 'a', ',', '(', 'b', '\'', ')', ',',
        '(', '2', ',', 'N', 'U', 'L', 'L', ')', ';'] : Str) =
      [['"', 'O', '\'', '\'', 'B', 'r', 'i', 'e', 'n', ',', ' ', '(', 'J', 'r', ')', '"',
        ',', ' ', '\'', 'a', ',', '(', 'b', '\''],
       ['2', ',', 'N', 'U', 'L', 'L']] := by
  have hg1 : GroupContent
      (['"', 'O', '\'', '\'', 'B', 'r', 'i', 'e', 'n', ',', ' ', '(', 'J', 'r', ')', '"',
        ',', ' ', '\'', 'a', ',', '(', 'b', '\''] : Str) := by
    have hd : DLit (['O', '\'', '\'', 'B', 'r', 'i', 'e', 'n', ',', ' ', '(', 'J', 'r', ')'] : Str) := by
      refine DLit.plain (by decide) (by decide) ?_
      refine DLit.plain (by decide) (by decide) ?_
      refine DLit.plain (by decide) (by decide) ?_
      refine DLit.plain (by decide) (by decide) ?_
      refine DLit.plain (by decide) (by decide) ?_
      refine DLit.plain (by decide) (by decide) ?_
      refine DLit.plain (by decide) (by decide) ?_
      refine DLit.plain (by decide) (by decide) ?_
      refine DLit.plain (by decide) (by decide) ?_
      refine DLit.plain (by decide) (by decide) ?_
      refine DLit.plain (by decide) (by decide) ?_
      refine DLit.plain (by decide) (by decide) ?_
      refine DLit.plain (by decide) (by decide) ?_
      exact DLit.plain (by decide) (by decide) DLit.nil
    have hs : SLit (['a', ',', '(', 'b'] : Str) := by
      refine SLit.plain (by decide) (by decide) ?_
      refine SLit.plain (by decide) (by decide) ?_
      refine SLit.plain (by decide) (by decide) ?_
      exact SLit.plain (by decide) (by decide) SLit.nil
    have htail : GroupContent ([',', ' ', '\'', 'a', ',', '(', 'b', '\''] : Str) := by
      refine GroupContent.plain (by decide) ?_
      refine GroupContent.plain (by decide) ?_
      exact GroupContent.squote hs GroupContent.nil (by decide)
    exact GroupContent.dquote hd htail (by decide)
  have hg2 : GroupContent (['2', ',', 'N', 'U', 'L', 'L'] : Str) := by
    refine GroupContent.plain (by decide) ?_
    refine GroupContent.plain (by decide) ?_
    refine GroupContent.plain (by decide) ?_
    refine GroupContent.plain (by decide) ?_
    refine GroupContent.plain (by decide) ?_
    exact GroupContent.plain (by decide) GroupContent.nil
  have hmain := extractRowStrings_topLevelGroups
    [['"', 'O', '\'', '\'', 'B', 'r', 'i', 'e', 'n', ',', ' ', '(', 'J', 'r', ')', '"',
      ',', ' ', '\'', 'a', ',', '(', 'b', '\''],
     ['2', ',', 'N', 'U', 'L', 'L']]
    [] [','] [';']
    (by
      intro g hgm
      simp only [List.mem_cons, List.mem_singleton] at hgm
      rcases hgm with h | h | h
      · rw [h]; exact hg1
      · rw [h]; exact hg2
      · exact absurd h (by simp))
    (by intro c hc; simp at hc)
    (by intro c hc; simp at hc; rw [hc]; decide)
    (by intro c hc; simp at hc; rw [hc]; decide)
  exact hmain.1

/-- C6: `parseRow` applied to the row text `1, 'Alice, Jr', NULL, TRUE`
returns the four-element list `[1, "Alice, Jr", null, true]`: the unquoted
numeric token becomes the number 1, the single-quoted token becomes the
unquoted string `Alice, Jr` (the comma inside the quotes does not split), and
the case-insensitive `NULL`/`TRUE` tokens become null and true. -/
theorem parseRow_aliceExample :
    parseRow ['1', ',', ' ', '\'', 'A', 'l', 'i', 'c', 'e', ',', ' ', 'J', 'r', '\'',
      ',', ' ', 'N', 'U', 'L', 'L', ',', ' ', 'T', 'R', 'U', 'E'] =
    [JSValue.vnum ⟨1, 0⟩,
     JSValue.vstr ['A', 'l', 'i', 'c', 'e', ',', ' ', 'J', 'r'],
     JSValue.vnull,
     JSValue.vbool true] := by
  decide

/-!
## `SQLParser.calculateEntityDepth` (src/js/SQLParser.js, lines 368–442)

Entities are modelled by their name and their list of column names (the only
fields the depth calculator reads). -/

/-- An entity as seen by the depth calculator. -/
structure DEntity where
  name : Str
  columns : List Str
deriving DecidableEq, Repr

/-- An entity with its computed `depth` property. -/
structure DEntityD where
  name : Str
  columns : List Str
  depth : Nat
deriving DecidableEq, Repr

/-- The names of all entities (`Object.fromEntries` keeps the last entry for a
duplicated name, but only existence is ever queried). -/
def entityNames (entities : List DEntity) : List Str :=
  entities.map (fun e => e.name)

/-- The inferred direct dependencies of one entity: columns ending in `_id`,
with the suffix stripped, that name a different existing entity. -/
def refsOf (entities : List DEntity) (e : DEntity) : List Str :=
  ((e.columns.filter (fun c => jsEndsWith c ['_', 'i', 'd'])).map
      (fun c => c.take (c.length - 3))).filter
    (fun ref => (ref != e.name) && (entityNames entities).contains ref)

/-- The dependency graph object `graph`: for each entity name the reference
list of the last entity carrying that name (later assignments overwrite
earlier ones); `[]` for unknown names (`graph[entityName] || []`). -/
def graphOf (entities : List DEntity) (n : Str) : List Str :=
  match entities.reverse.find? (fun e => e.name == n) with
  | some e => refsOf entities e
  | none => []

/-- The memoization map `visited` (an association list; `visited.set` conses a
fresh entry, `visited.has`/`get` is the first — most recent — match). -/
abbrev DepthMemo := List (Str × Nat)

/-- `Math.max` over a list of naturals (`0` on the empty list; the source
guards the empty case separately). -/
def maxListNat (l : List Nat) : Nat := l.foldl max 0

/-- The memoized depth-first search `dfs(entityName, seen)` inside
`calculateEntityDepth`.  The `fuel` argument (initially `entities.length + 1`)
only bounds the recursion depth and is never exhausted: every nested call adds
a previously unseen entity name to `seen`, and all names on a call chain are
distinct members of the entity-name set, so a chain is never longer than the
number of entities plus one. -/
def dfs (graph : Str → List Str) (fuel : Nat) (memo : DepthMemo) (e : Str)
    (seen : List Str) : Nat × DepthMemo :=
  match fuel with
  | 0 => (0, memo)
  | fuel + 1 =>
    match List.lookup e memo with
    | some v => (v, memo)
    | none =>
      if e ∈ seen then (0, memo)
      else
        let seen1 := e :: seen
        let parents := graph e
        let dm := parents.foldl
          (fun acc p =>
            let r := dfs graph fuel acc.2 p seen1
            (acc.1 ++ [r.1], r.2))
          (([] : List Nat), memo)
        let maxDepth := if parents.length > 0 then maxListNat dm.1 else 0
        let depth := maxDepth + 1
        (depth, (e, depth) :: dm.2)

/-- `SQLParser.calculateEntityDepth`: assigns every entity its dependency
depth (the memo map is shared across the top-level loop; the optional
`reverse` mode remaps each depth to `maxDepth - depth`). -/
def calculateEntityDepth (entities : List DEntity) (reverse : Bool) : List DEntityD :=
  let graph := graphOf entities
  let run := entities.foldl
    (fun acc e =>
      let r := dfs graph (entities.length + 1) acc.2 e.name []
      (acc.1 ++ [DEntityD.mk e.name e.columns r.1], r.2))
    (([] : List DEntityD), ([] : DepthMemo))
  let result := run.1
  if reverse then
    let maxDepth := maxListNat (result.map (fun e => e.depth))
    result.map (fun e => DEntityD.mk e.name e.columns (maxDepth - e.depth))
  else result

/-- The depth assigned to the (first) entity named `n`. -/
def depthOf (out : List DEntityD) (n : Str) : Option Nat :=
  (out.find? (fun e => e.name == n)).map (fun e => e.depth)

/-- The per-entity depth equations claimed by the specification: depth 1 for
an entity with no inferred dependencies, and `1 + max(depth of each direct
dependency)` for an entity with dependencies. -/
def depthEquationHolds (entities : List DEntity) : Prop :=
  ∀ e ∈ calculateEntityDepth entities false,
    (graphOf entities e.name = [] → e.depth = 1) ∧
    (graphOf entities e.name ≠ [] →
      e.depth = 1 + maxListNat ((graphOf entities e.name).map
        (fun p => (depthOf (calculateEntityDepth entities false) p).getD 0)))

instance (entities : List DEntity) : Decidable (depthEquationHolds entities) := by
  unfold depthEquationHolds
  infer_instance

/-- C3: for the 2-entity dependency cycle (entity `a` has column `b_id`,
entity `b` has column `a_id`) the depth calculation terminates with finite
depths: the entity processed first receives depth 2 and the other depth 1,
for either processing order. -/
theorem calculateEntityDepth_twoCycle :
    calculateEntityDepth
        [⟨['a'], [['b', '_', 'i', 'd']]⟩, ⟨['b'], [['a', '_', 'i', 'd']]⟩] false =
      [⟨['a'], [['b', '_', 'i', 'd']], 2⟩, ⟨['b'], [['a', '_', 'i', 'd']], 1⟩] ∧
    calculateEntityDepth
        [⟨['b'], [['a', '_', 'i', 'd']]⟩, ⟨['a'], [['b', '_', 'i', 'd']]⟩] false =
      [⟨['b'], [['a', '_', 'i', 'd']], 2⟩, ⟨['a'], [['b', '_', 'i', 'd']], 1⟩] := by
  decide

/-- Counterexample to C2 as stated: in the 2-entity cycle `a ↔ b`, entity `b`
has the direct dependency `a`, yet its assigned depth is 1 while
`1 + depth(a) = 3`: the claimed equation fails on cyclic inputs. -/
theorem depthEquation_counterexample :
    ¬ depthEquationHolds
      [⟨['a'], [['b', '_', 'i', 'd']]⟩, ⟨['b'], [['a', '_', 'i', 'd']]⟩] := by
  decide

/-!
### Correctness of the depth calculation on acyclic dependency graphs

Acyclicity is expressed by a ranking function that strictly decreases along
dependency edges and is bounded by the number of entities (such a ranking
exists exactly for acyclic finite graphs). -/

/-- `rank` witnesses acyclicity of the inferred dependency graph. -/
def RankOK (entities : List DEntity) (rank : Str → Nat) : Prop :=
  ∀ e ∈ entities, (∀ p ∈ graphOf entities e.name, rank p < rank e.name) ∧
    rank e.name < entities.length

instance (entities : List DEntity) (rank : Str → Nat) : Decidable (RankOK entities rank) := by
  unfold RankOK
  infer_instance

/-- Every memo lookup present in `m` is preserved (with its value) in `m'`. -/
def MemoExtends (m m' : DepthMemo) : Prop :=
  ∀ k v, List.lookup k m = some v → List.lookup k m' = some v

theorem memoExtends_refl (m : DepthMemo) : MemoExtends m m :=
  fun _ _ h => h

theorem memoExtends_trans {a b c : DepthMemo} (h1 : MemoExtends a b) (h2 : MemoExtends b c) :
    MemoExtends a c :=
  fun k v h => h2 k v (h1 k v h)

/-- Every entry of the memo satisfies the local depth equation with respect to
the memo itself. -/
def MemoGood (graph : Str → List Str) (memo : DepthMemo) : Prop :=
  ∀ k v, List.lookup k memo = some v →
    (graph k = [] → v = 1) ∧
    (graph k ≠ [] →
      (∀ p ∈ graph k, List.lookup p memo ≠ none) ∧
      v = 1 + maxListNat ((graph k).map (fun p => (List.lookup p memo).getD 0)))

theorem lookup_cons_self (k : Str) (v : Nat) (m : DepthMemo) :
    List.lookup k ((k, v) :: m) = some v := by
  simp [List.lookup]

theorem lookup_cons_ne {k e : Str} (h : k ≠ e) (v : Nat) (m : DepthMemo) :
    List.lookup k ((e, v) :: m) = List.lookup k m := by
  have hb : (k == e) = false := beq_false_of_ne h
  simp [List.lookup, hb]

/-- No entity depends on itself: the reference filter removes self-references. -/
theorem not_self_mem_graph (entities : List DEntity) (k : Str) :
    k ∉ graphOf entities k := by
  intro hmem
  unfold graphOf at hmem
  rcases hfind : (entities.reverse.find? (fun e => e.name == k)) with _ | e0
  · rw [hfind] at hmem
    simp at hmem
  · rw [hfind] at hmem
    have hname : e0.name = k := by
      have := List.find?_some hfind
      simpa using this
    unfold refsOf at hmem
    have h2 := (List.mem_filter.mp hmem).2
    rw [hname] at h2
    simp at h2

/-- Graph successors are entity names. -/
theorem graph_mem_names {entities : List DEntity} {k p : Str}
    (h : p ∈ graphOf entities k) : p ∈ entityNames entities := by
  unfold graphOf at h
  rcases hfind : (entities.reverse.find? (fun e => e.name == k)) with _ | e0
  · rw [hfind] at h
    simp at h
  · rw [hfind] at h
    unfold refsOf at h
    have h2 := (List.mem_filter.mp h).2
    have h3 : (entityNames entities).contains p = true := by
      cases hb : (entityNames entities).contains p
      · rw [hb] at h2
        simp at h2
      · rfl
    simpa using h3

/-- A name with a nonempty reference list names some entity. -/
theorem graph_key_names {entities : List DEntity} {k : Str}
    (h : graphOf entities k ≠ []) : ∃ e0 ∈ entities, e0.name = k := by
  unfold graphOf at h
  rcases hfind : (entities.reverse.find? (fun e => e.name == k)) with _ | e0
  · rw [hfind] at h
    exact absurd rfl h
  · refine ⟨e0, ?_, ?_⟩
    · have := List.mem_of_find?_eq_some hfind
      exact List.mem_reverse.mp this
    · have := List.find?_some hfind
      simpa using this

theorem rankOK_edge {entities : List DEntity} {rank : Str → Nat}
    (hrank : RankOK entities rank) :
    ∀ k p, p ∈ graphOf entities k → rank p < rank k := by
  intro k p hp
  have hk : graphOf entities k ≠ [] := by
    intro hh
    rw [hh] at hp
    simp at hp
  obtain ⟨e0, he0, hname⟩ := graph_key_names hk
  have h1 := (hrank e0 he0).1
  rw [hname] at h1
  exact h1 p hp

/-- Consing a fresh, locally-correct entry preserves `MemoGood`. -/
theorem memoGood_cons {graph : Str → List Str} {memo : DepthMemo} {e : Str} {d : Nat}
    (hgood : MemoGood graph memo) (hfresh : List.lookup e memo = none)
    (hself : e ∉ graph e)
    (h1 : graph e = [] → d = 1)
    (h2 : graph e ≠ [] → (∀ p ∈ graph e, List.lookup p memo ≠ none) ∧
        d = 1 + maxListNat ((graph e).map (fun p => (List.lookup p memo).getD 0))) :
    MemoGood graph ((e, d) :: memo) := by
  intro k v hkv
  by_cases hk : k = e
  · subst hk
    rw [lookup_cons_self] at hkv
    injection hkv with hv
    subst hv
    refine ⟨h1, fun hne => ?_⟩
    obtain ⟨hpres, heq⟩ := h2 hne
    constructor
    · intro p hp
      have hpe : p ≠ k := fun hh => hself (hh ▸ hp)
      rw [lookup_cons_ne hpe]
      exact hpres p hp
    · rw [heq]
      congr 1
      congr 1
      apply List.map_congr_left
      intro p hp
      have hpe : p ≠ k := fun hh => hself (hh ▸ hp)
      rw [lookup_cons_ne hpe]
  · rw [lookup_cons_ne hk] at hkv
    obtain ⟨g1, g2⟩ := hgood k v hkv
    refine ⟨g1, fun hne => ?_⟩
    obtain ⟨hpres, heq⟩ := g2 hne
    constructor
    · intro p hp
      have hpe : p ≠ e := by
        intro hh
        exact (hpres p hp) (hh ▸ hfresh)
      rw [lookup_cons_ne hpe]
      exact hpres p hp
    · rw [heq]
      congr 1
      congr 1
      apply List.map_congr_left
      intro p hp
      have hpe : p ≠ e := by
        intro hh
        exact (hpres p hp) (hh ▸ hfresh)
      rw [lookup_cons_ne hpe]

/-- Behaviour of the parent-processing fold inside `dfs`, given the
specification of the recursive calls. -/
theorem dfs_fold_spec (graph : Str → List Str) (rank : Str → Nat) (fuel : Nat)
    (seen1 : List Str) (B : Nat)
    (hchild : ∀ p, rank p < B → ∀ (m : DepthMemo), MemoGood graph m →
      List.lookup p (dfs graph fuel m p seen1).2 = some (dfs graph fuel m p seen1).1 ∧
      MemoExtends m (dfs graph fuel m p seen1).2 ∧
      MemoGood graph (dfs graph fuel m p seen1).2 ∧
      (∀ k, List.lookup k m = none → List.lookup k (dfs graph fuel m p seen1).2 ≠ none →
        rank k ≤ rank p)) :
    ∀ (ps : List Str), (∀ p ∈ ps, rank p < B) →
    ∀ (ds0 : List Nat) (m0 : DepthMemo), MemoGood graph m0 →
    MemoGood graph (ps.foldl (fun acc p =>
        let r := dfs graph fuel acc.2 p seen1
        (acc.1 ++ [r.1], r.2)) (ds0, m0)).2 ∧
    MemoExtends m0 (ps.foldl (fun acc p =>
        let r := dfs graph fuel acc.2 p seen1
        (acc.1 ++ [r.1], r.2)) (ds0, m0)).2 ∧
    (∀ k, List.lookup k m0 = none →
      List.lookup k (ps.foldl (fun acc p =>
        let r := dfs graph fuel acc.2 p seen1
        (acc.1 ++ [r.1], r.2)) (ds0, m0)).2 ≠ none → rank k < B) ∧
    (∀ p ∈ ps, List.lookup p (ps.foldl (fun acc p =>
        let r := dfs graph fuel acc.2 p seen1
        (acc.1 ++ [r.1], r.2)) (ds0, m0)).2 ≠ none) ∧
    (ps.foldl (fun acc p =>
        let r := dfs graph fuel acc.2 p seen1
        (acc.1 ++ [r.1], r.2)) (ds0, m0)).1 =
      ds0 ++ ps.map (fun p => (List.lookup p (ps.foldl (fun acc p =>
        let r := dfs graph fuel acc.2 p seen1
        (acc.1 ++ [r.1], r.2)) (ds0, m0)).2).getD 0) := by
  intro ps
  induction ps with
  | nil =>
    intro _ ds0 m0 hm0
    exact ⟨hm0, memoExtends_refl m0, fun k h1 h2 => absurd h1 h2, by simp, by simp⟩
  | cons p ps' ih =>
    intro hps ds0 m0 hm0
    have hp : rank p < B := hps p (by simp)
    obtain ⟨hc1, hc2, hc3, hc4⟩ := hchild p hp m0 hm0
    have hstep : ((p :: ps').foldl (fun acc p =>
        let r := dfs graph fuel acc.2 p seen1
        (acc.1 ++ [r.1], r.2)) (ds0, m0)) =
        (ps'.foldl (fun acc p =>
          let r := dfs graph fuel acc.2 p seen1
          (acc.1 ++ [r.1], r.2))
          (ds0 ++ [(dfs graph fuel m0 p seen1).1], (dfs graph fuel m0 p seen1).2)) := by
      simp [List.foldl_cons]
    obtain ⟨ih1, ih2, ih3, ih4, ih5⟩ :=
      ih (fun q hq => hps q (List.mem_cons_of_mem p hq))
        (ds0 ++ [(dfs graph fuel m0 p seen1).1]) (dfs graph fuel m0 p seen1).2 hc3
    rw [hstep]
    refine ⟨ih1, memoExtends_trans hc2 ih2, ?_, ?_, ?_⟩
    · intro k hk1 hk2
      rcases hmid : List.lookup k (dfs graph fuel m0 p seen1).2 with _ | v
      · exact ih3 k hmid hk2
      · have := hc4 k hk1 (by rw [hmid]; exact Option.noConfusion)
        omega
    · intro q hq
      rcases List.mem_cons.mp hq with hq | hq
      · subst hq
        have := ih2 q (dfs graph fuel m0 q seen1).1 hc1
        rw [this]
        exact Option.noConfusion
      · exact ih4 q hq
    · rw [ih5]
      have hpv : List.lookup p (ps'.foldl (fun acc p =>
          let r := dfs graph fuel acc.2 p seen1
          (acc.1 ++ [r.1], r.2))
          (ds0 ++ [(dfs graph fuel m0 p seen1).1], (dfs graph fuel m0 p seen1).2)).2 =
          some (dfs graph fuel m0 p seen1).1 :=
        ih2 p (dfs graph fuel m0 p seen1).1 hc1
      simp [hpv]

/-- Specification of the memoized DFS on an acyclic graph: it returns a
memoized value for the requested entity, only extends the memo, preserves the
local depth equations, and adds only entries of rank at most the requested
entity's rank. -/
theorem dfs_spec (graph : Str → List Str) (rank : Str → Nat)
    (hedge : ∀ k p, p ∈ graph k → rank p < rank k)
    (hself : ∀ k, k ∉ graph k) :
    ∀ (n : Nat) (e : Str), rank e < n →
    ∀ (fuel : Nat) (memo : DepthMemo) (seen : List Str),
      rank e < fuel → MemoGood graph memo → (∀ s ∈ seen, rank e < rank s) →
      List.lookup e (dfs graph fuel memo e seen).2 = some (dfs graph fuel memo e seen).1 ∧
      MemoExtends memo (dfs graph fuel memo e seen).2 ∧
      MemoGood graph (dfs graph fuel memo e seen).2 ∧
      (∀ k, List.lookup k memo = none → List.lookup k (dfs graph fuel memo e seen).2 ≠ none →
        rank k ≤ rank e) := by
  intro n
  induction n with
  | zero =>
    intro e he
    omega
  | succ n ih =>
    intro e he fuel memo seen hfuel hgood hseen
    obtain ⟨fuel', rfl⟩ : ∃ f, fuel = f + 1 := ⟨fuel - 1, by omega⟩
    rcases hle : List.lookup e memo with _ | v
    · -- not memoized
      have hes : e ∉ seen := by
        intro hmem
        exact absurd (hseen e hmem) (lt_irrefl _)
      have hbody : dfs graph (fuel' + 1) memo e seen =
          (let dm := (graph e).foldl
            (fun acc p =>
              let r := dfs graph fuel' acc.2 p (e :: seen)
              (acc.1 ++ [r.1], r.2))
            (([] : List Nat), memo)
          let maxDepth := if (graph e).length > 0 then maxListNat dm.1 else 0
          (maxDepth + 1, (e, maxDepth + 1) :: dm.2)) := by
        rw [dfs]
        rw [hle]
        rw [if_neg hes]
      have hchild : ∀ p, rank p < rank e → ∀ (m : DepthMemo), MemoGood graph m →
          List.lookup p (dfs graph fuel' m p (e :: seen)).2 =
            some (dfs graph fuel' m p (e :: seen)).1 ∧
          MemoExtends m (dfs graph fuel' m p (e :: seen)).2 ∧
          MemoGood graph (dfs graph fuel' m p (e :: seen)).2 ∧
          (∀ k, List.lookup k m = none →
            List.lookup k (dfs graph fuel' m p (e :: seen)).2 ≠ none → rank k ≤ rank p) := by
        intro p hp m hm
        refine ih p (by omega) fuel' m (e :: seen) (by omega) hm ?_
        intro s hs
        rcases List.mem_cons.mp hs with hs | hs
        · subst hs
          exact hp
        · exact lt_trans hp (hseen s hs)
      obtain ⟨f1, f2, f3, f4, f5⟩ :=
        dfs_fold_spec graph rank fuel' (e :: seen) (rank e) hchild (graph e)
          (fun p hp => hedge e p hp) [] memo hgood
      set fold := (graph e).foldl
        (fun acc p =>
          let r := dfs graph fuel' acc.2 p (e :: seen)
          (acc.1 ++ [r.1], r.2)) (([] : List Nat), memo) with hfold
      have hfresh : List.lookup e fold.2 = none := by
        rcases hmid : List.lookup e fold.2 with _ | v
        · rfl
        · have := f3 e hle (by rw [hmid]; exact Option.noConfusion)
          omega
      constructor
      · rw [hbody]
        simp only []
        exact lookup_cons_self e _ fold.2
      constructor
      · rw [hbody]
        simp only []
        intro k v hkv
        have hke : k ≠ e := by
          intro hh
          rw [hh, hle] at hkv
          exact Option.noConfusion hkv
        rw [lookup_cons_ne hke]
        exact f2 k v hkv
      constructor
      · rw [hbody]
        simp only []
        refine memoGood_cons f1 hfresh (hself e) ?_ ?_
        · intro hg
          rw [hg]
          simp
        · intro hg
          constructor
          · exact f4
          · rw [f5]
            have hpos : (graph e).length > 0 := by
              cases hge : graph e
              · exact absurd hge hg
              · simp [hge]
            rw [if_pos hpos]
            simp [Nat.add_comm]
      · rw [hbody]
        simp only []
        intro k hk1 hk2
        by_cases hk : k = e
        · subst hk
          exact le_rfl
        · rw [lookup_cons_ne hk] at hk2
          have := f3 k hk1 hk2
          omega
    · -- memoized: the call returns immediately
      have hbody : dfs graph (fuel' + 1) memo e seen = (v, memo) := by
        rw [dfs]
        rw [hle]
      rw [hbody]
      exact ⟨hle, memoExtends_refl memo, hgood, fun k h1 h2 => absurd h1 h2⟩

/-- Behaviour of the top-level entity loop of `calculateEntityDepth`, given
the specification of the per-entity DFS calls. -/
theorem calc_fold_spec (graph : Str → List Str) (fuel : Nat) (Q : Str → Prop)
    (hdfs : ∀ eN : Str, Q eN → ∀ m : DepthMemo, MemoGood graph m →
      List.lookup eN (dfs graph fuel m eN []).2 = some (dfs graph fuel m eN []).1 ∧
      MemoExtends m (dfs graph fuel m eN []).2 ∧
      MemoGood graph (dfs graph fuel m eN []).2) :
    ∀ (es : List DEntity), (∀ e ∈ es, Q e.name) →
    ∀ (out0 : List DEntityD) (m0 : DepthMemo),
    MemoGood graph m0 →
    (∀ o ∈ out0, List.lookup o.name m0 = some o.depth) →
    MemoGood graph (es.foldl (fun acc e =>
        let r := dfs graph fuel acc.2 e.name []
        (acc.1 ++ [DEntityD.mk e.name e.columns r.1], r.2)) (out0, m0)).2 ∧
    MemoExtends m0 (es.foldl (fun acc e =>
        let r := dfs graph fuel acc.2 e.name []
        (acc.1 ++ [DEntityD.mk e.name e.columns r.1], r.2)) (out0, m0)).2 ∧
    (∃ suf, (es.foldl (fun acc e =>
        let r := dfs graph fuel acc.2 e.name []
        (acc.1 ++ [DEntityD.mk e.name e.columns r.1], r.2)) (out0, m0)).1 = out0 ++ suf) ∧
    (∀ o ∈ (es.foldl (fun acc e =>
        let r := dfs graph fuel acc.2 e.name []
        (acc.1 ++ [DEntityD.mk e.name e.columns r.1], r.2)) (out0, m0)).1,
      List.lookup o.name (es.foldl (fun acc e =>
        let r := dfs graph fuel acc.2 e.name []
        (acc.1 ++ [DEntityD.mk e.name e.columns r.1], r.2)) (out0, m0)).2 = some o.depth) ∧
    (∀ e ∈ es, ∃ o ∈ (es.foldl (fun acc e =>
        let r := dfs graph fuel acc.2 e.name []
        (acc.1 ++ [DEntityD.mk e.name e.columns r.1], r.2)) (out0, m0)).1, o.name = e.name) := by
  intro es
  induction es with
  | nil =>
    intro _ out0 m0 hm0 hout0
    exact ⟨hm0, memoExtends_refl m0, ⟨[], by simp⟩, hout0, by simp⟩
  | cons e es' ih =>
    intro hq out0 m0 hm0 hout0
    obtain ⟨d1, d2, d3⟩ := hdfs e.name (hq e (by simp)) m0 hm0
    have hstep : ((e :: es').foldl (fun acc e =>
        let r := dfs graph fuel acc.2 e.name []
        (acc.1 ++ [DEntityD.mk e.name e.columns r.1], r.2)) (out0, m0)) =
        (es'.foldl (fun acc e =>
          let r := dfs graph fuel acc.2 e.name []
          (acc.1 ++ [DEntityD.mk e.name e.columns r.1], r.2))
          (out0 ++ [DEntityD.mk e.name e.columns (dfs graph fuel m0 e.name []).1],
           (dfs graph fuel m0 e.name []).2)) := by
      simp [List.foldl_cons]
    have hout1 : ∀ o ∈ out0 ++ [DEntityD.mk e.name e.columns (dfs graph fuel m0 e.name []).1],
        List.lookup o.name (dfs graph fuel m0 e.name []).2 = some o.depth := by
      intro o ho
      rcases List.mem_append.mp ho with ho | ho
      · exact d2 o.name o.depth (hout0 o ho)
      · rcases List.mem_singleton.mp ho with rfl
        exact d1
    obtain ⟨i1, i2, i3, i4, i5⟩ := ih
      (fun x hx => hq x (List.mem_cons_of_mem e hx))
      (out0 ++ [DEntityD.mk e.name e.columns (dfs graph fuel m0 e.name []).1])
      (dfs graph fuel m0 e.name []).2 d3 hout1
    rw [hstep]
    refine ⟨i1, memoExtends_trans d2 i2, ?_, i4, ?_⟩
    · obtain ⟨suf, hsuf⟩ := i3
      exact ⟨[DEntityD.mk e.name e.columns (dfs graph fuel m0 e.name []).1] ++ suf,
        by rw [hsuf, List.append_assoc]⟩
    · intro e' he'
      rcases List.mem_cons.mp he' with he' | he'
      · subst he'
        obtain ⟨suf, hsuf⟩ := i3
        refine ⟨DEntityD.mk e'.name e'.columns (dfs graph fuel m0 e'.name []).1, ?_, rfl⟩
        rw [hsuf]
        simp
      · exact i5 e' he'

/-- C2 (amended): on an acyclic dependency graph — witnessed by a bounded
ranking that strictly decreases along dependency edges — `calculateEntityDepth`
assigns depth 1 to every entity with no inferred dependencies and
`1 + max(depth of each direct dependency)` to every entity with dependencies
(and every direct dependency receives a depth).  On cyclic graphs the equation
fails (see the counterexample); the diamond instance is checked in the
witness. -/
theorem calculateEntityDepth_acyclic (entities : List DEntity) (rank : Str → Nat)
    (hrank : RankOK entities rank) :
    ∀ ent ∈ calculateEntityDepth entities false,
      (graphOf entities ent.name = [] → ent.depth = 1) ∧
      (graphOf entities ent.name ≠ [] →
        (∀ p ∈ graphOf entities ent.name,
          depthOf (calculateEntityDepth entities false) p ≠ none) ∧
        ent.depth = 1 + maxListNat ((graphOf entities ent.name).map
          (fun p => (depthOf (calculateEntityDepth entities false) p).getD 0))) := by
  have hedge := rankOK_edge hrank
  have hself : ∀ k, k ∉ graphOf entities k := not_self_mem_graph entities
  have hboundName : ∀ k ∈ entityNames entities, rank k < entities.length := by
    intro k hk
    obtain ⟨e, he, rfl⟩ := List.mem_map.mp hk
    exact (hrank e he).2
  have hdfs : ∀ eN : Str, eN ∈ entityNames entities →
      ∀ m : DepthMemo, MemoGood (graphOf entities) m →
      List.lookup eN (dfs (graphOf entities) (entities.length + 1) m eN []).2 =
        some (dfs (graphOf entities) (entities.length + 1) m eN []).1 ∧
      MemoExtends m (dfs (graphOf entities) (entities.length + 1) m eN []).2 ∧
      MemoGood (graphOf entities) (dfs (graphOf entities) (entities.length + 1) m eN []).2 := by
    intro eN hmem m hm
    have hb := hboundName eN hmem
    obtain ⟨s1, s2, s3, _⟩ := dfs_spec (graphOf entities) rank hedge hself
      (rank eN + 1) eN (by omega) (entities.length + 1) m [] (by omega) hm (by simp)
    exact ⟨s1, s2, s3⟩
  obtain ⟨g1, g2, g3, g4, g5⟩ := calc_fold_spec (graphOf entities) (entities.length + 1)
    (fun eN => eN ∈ entityNames entities) hdfs entities
    (fun e he => List.mem_map.mpr ⟨e, he, rfl⟩) [] []
    (fun k v h => by simp [List.lookup] at h) (by simp)
  have hresult : calculateEntityDepth entities false =
      (entities.foldl (fun acc e =>
        let r := dfs (graphOf entities) (entities.length + 1) acc.2 e.name []
        (acc.1 ++ [DEntityD.mk e.name e.columns r.1], r.2)) ([], [])).1 := by
    unfold calculateEntityDepth
    simp
  have hdepthOf : ∀ p ∈ entityNames entities,
      depthOf (calculateEntityDepth entities false) p =
        List.lookup p (entities.foldl (fun acc e =>
          let r := dfs (graphOf entities) (entities.length + 1) acc.2 e.name []
          (acc.1 ++ [DEntityD.mk e.name e.columns r.1], r.2)) ([], [])).2 := by
    intro p hp
    obtain ⟨e, he, rfl⟩ := List.mem_map.mp hp
    obtain ⟨o, ho, honame⟩ := g5 e he
    rcases hfindres : ((entities.foldl (fun acc e =>
        let r := dfs (graphOf entities) (entities.length + 1) acc.2 e.name []
        (acc.1 ++ [DEntityD.mk e.name e.columns r.1], r.2)) ([], [])).1).find?
        (fun x => x.name == e.name) with _ | o'
    · exfalso
      have := List.find?_eq_none.mp hfindres o ho
      simp [honame] at this
    · have ho'mem := List.mem_of_find?_eq_some hfindres
      have ho'name : o'.name = e.name := by
        have := List.find?_some hfindres
        simpa using this
      have hlook := g4 o' ho'mem
      rw [ho'name] at hlook
      unfold depthOf
      rw [hresult, hfindres, hlook]
      simp
  intro ent hent
  rw [hresult] at hent
  have hlook := g4 ent hent
  obtain ⟨q1, q2⟩ := g1 ent.name ent.depth hlook
  refine ⟨q1, fun hne => ?_⟩
  obtain ⟨q3, q4⟩ := q2 hne
  constructor
  · intro p hp
    rw [hdepthOf p (graph_mem_names hp)]
    exact q3 p hp
  · rw [q4]
    congr 1
    congr 1
    apply List.map_congr_left
    intro p hp
    rw [hdepthOf p (graph_mem_names hp)]

/-- Witness for the amended C2: the diamond dependency graph (`b` and `c`
reference `a`; `d` references `b` and `c`) is acyclic via the ranking
`a ↦ 0, b, c ↦ 1, d ↦ 2`, the depth equations hold, and the concrete depths
are `depth(a) = 1`, `depth(b) = depth(c) = 2`, `depth(d) = 3`. -/
theorem calculateEntityDepth_acyclic_witness :
    RankOK
      [⟨['a'], []⟩, ⟨['b'], [['a', '_', 'i', 'd']]⟩, ⟨['c'], [['a', '_', 'i', 'd']]⟩,
       ⟨['d'], [['b', '_', 'i', 'd'], ['c', '_', 'i', 'd']]⟩]
      (fun n => if n = ['a'] then 0 else if n = ['d'] then 2 else 1) ∧
    (∀ ent ∈ calculateEntityDepth
      [⟨['a'], []⟩, ⟨['b'], [['a', '_', 'i', 'd']]⟩, ⟨['c'], [['a', '_', 'i', 'd']]⟩,
       ⟨['d'], [['b', '_', 'i', 'd'], ['c', '_', 'i', 'd']]⟩] false,
      (graphOf [⟨['a'], []⟩, ⟨['b'], [['a', '_', 'i', 'd']]⟩, ⟨['c'], [['a', '_', 'i', 'd']]⟩,
        ⟨['d'], [['b', '_', 'i', 'd'], ['c', '_', 'i', 'd']]⟩] ent.name = [] →
        ent.depth = 1) ∧
      (graphOf [⟨['a'], []⟩, ⟨['b'], [['a', '_', 'i', 'd']]⟩, ⟨['c'], [['a', '_', 'i', 'd']]⟩,
        ⟨['d'], [['b', '_', 'i', 'd'], ['c', '_', 'i', 'd']]⟩] ent.name ≠ [] →
        (∀ p ∈ graphOf [⟨['a'], []⟩, ⟨['b'], [['a', '_', 'i', 'd']]⟩,
            ⟨['c'], [['a', '_', 'i', 'd']]⟩,
            ⟨['d'], [['b', '_', 'i', 'd'], ['c', '_', 'i', 'd']]⟩] ent.name,
          depthOf (calculateEntityDepth
            [⟨['a'], []⟩, ⟨['b'], [['a', '_', 'i', 'd']]⟩, ⟨['c'], [['a', '_', 'i', 'd']]⟩,
             ⟨['d'], [['b', '_', 'i', 'd'], ['c', '_', 'i', 'd']]⟩] false) p ≠ none) ∧
        ent.depth = 1 + maxListNat ((graphOf
          [⟨['a'], []⟩, ⟨['b'], [['a', '_', 'i', 'd']]⟩, ⟨['c'], [['a', '_', 'i', 'd']]⟩,
           ⟨['d'], [['b', '_', 'i', 'd'], ['c', '_', 'i', 'd']]⟩] ent.name).map
          (fun p => (depthOf (calculateEntityDepth
            [⟨['a'], []⟩, ⟨['b'], [['a', '_', 'i', 'd']]⟩, ⟨['c'], [['a', '_', 'i', 'd']]⟩,
             ⟨['d'], [['b', '_', 'i', 'd'], ['c', '_', 'i', 'd']]⟩] false) p).getD 0)))) ∧
    calculateEntityDepth
      [⟨['a'], []⟩, ⟨['b'], [['a', '_', 'i', 'd']]⟩, ⟨['c'], [['a', '_', 'i', 'd']]⟩,
       ⟨['d'], [['b', '_', 'i', 'd'], ['c', '_', 'i', 'd']]⟩] false =
      [⟨['a'], [], 1⟩, ⟨['b'], [['a', '_', 'i', 'd']], 2⟩, ⟨['c'], [['a', '_', 'i', 'd']], 2⟩,
       ⟨['d'], [['b', '_', 'i', 'd'], ['c', '_', 'i', 'd']], 3⟩] := by
  refine ⟨by decide, ?_, by decide⟩
  exact calculateEntityDepth_acyclic
    [⟨['a'], []⟩, ⟨['b'], [['a', '_', 'i', 'd']]⟩, ⟨['c'], [['a', '_', 'i', 'd']]⟩,
     ⟨['d'], [['b', '_', 'i', 'd'], ['c', '_', 'i', 'd']]⟩]
    (fun n => if n = ['a'] then 0 else if n = ['d'] then 2 else 1)
    (by decide)

/-!
## `SQLConverter` dialect type conversion (src/js/GraphQLSpringGenerator.js)

The per-dialect mapping tables are JavaScript object literals iterated with
`for..in`, which visits string keys in insertion order; they are therefore
modelled as ordered association lists.  Only the members reached by the
claims (`isTinyInt1`, `isInteger`, `toSqliteType`, `toMySQLType`, the two
mapping tables and their helpers) are embedded. -/

/-- `this.dbToSqlite` (constructor, lines 1763–1799). -/
def dbToSqlite : List (Str × Str) :=
  [("int".toList, "INTEGER".toList),
   ("bit".toList, "BOOLEAN".toList),
   ("tinyint(1)".toList, "BOOLEAN".toList),
   ("tinyint".toList, "INTEGER".toList),
   ("smallint".toList, "INTEGER".toList),
   ("mediumint".toList, "INTEGER".toList),
   ("bigint".toList, "INTEGER".toList),
   ("real".toList, "REAL".toList),
   ("float".toList, "REAL".toList),
   ("double".toList, "REAL".toList),
   ("decimal".toList, "REAL".toList),
   ("nvarchar".toList, "NVARCHAR".toList),
   ("varchar".toList, "NVARCHAR".toList),
   ("character varying".toList, "NVARCHAR".toList),
   ("char".toList, "NVARCHAR".toList),
   ("tinytext".toList, "TEXT".toList),
   ("mediumtext".toList, "TEXT".toList),
   ("longtext".toList, "TEXT".toList),
   ("text".toList, "TEXT".toList),
   ("datetime2".toList, "TIMESTAMP".toList),
   ("datetime".toList, "DATETIME".toList),
   ("timestamp".toList, "TIMESTAMP".toList),
   ("date".toList, "DATE".toList),
   ("time".toList, "TIME".toList),
   ("year".toList, "INTEGER".toList),
   ("boolean".toList, "INTEGER".toList),
   ("json".toList, "TEXT".toList),
   ("jsonb".toList, "TEXT".toList),
   ("integer".toList, "INTEGER".toList),
   ("serial".toList, "INTEGER".toList),
   ("bigserial".toList, "INTEGER".toList),
   ("double precision".toList, "REAL".toList),
   ("timestamptz".toList, "TIMESTAMP".toList)]

/-- `this.dbToMySQL` (constructor, lines 1801–1837). -/
def dbToMySQL : List (Str × Str) :=
  [("bigint".toList, "BIGINT".toList),
   ("bigserial".toList, "BIGINT".toList),
   ("serial".toList, "BIGINT".toList),
   ("mediumint".toList, "MEDIUMINT".toList),
   ("smallint".toList, "SMALLINT".toList),
   ("integer".toList, "INT".toList),
   ("double".toList, "DOUBLE".toList),
   ("float".toList, "FLOAT".toList),
   ("real".toList, "DOUBLE".toList),
   ("decimal".toList, "DECIMAL".toList),
   ("numeric".toList, "NUMERIC".toList),
   ("tinytext".toList, "TINYTEXT".toList),
   ("mediumtext".toList, "MEDIUMTEXT".toList),
   ("longtext".toList, "LONGTEXT".toList),
   ("text".toList, "TEXT".toList),
   ("nvarchar".toList, "VARCHAR".toList),
   ("varchar".toList, "VARCHAR".toList),
   ("character varying".toList, "VARCHAR".toList),
   ("tinyint(1)".toList, "TINYINT(1)".toList),
   ("tinyint".toList, "TINYINT".toList),
   ("boolean".toList, "TINYINT(1)".toList),
   ("bit".toList, "TINYINT(1)".toList),
   ("int".toList, "INT".toList),
   ("datetime2".toList, "TIMESTAMP".toList),
   ("datetime".toList, "DATETIME".toList),
   ("date".toList, "DATE".toList),
   ("timestamptz".toList, "TIMESTAMP".toList),
   ("timestamp with time zone".toList, "TIMESTAMP".toList),
   ("timestamp without time zone".toList, "DATETIME".toList),
   ("timestamp".toList, "TIMESTAMPTZ".toList),
   ("json".toList, "JSON".toList),
   ("enum".toList, "ENUM".toList),
   ("set".toList, "SET".toList),
   ("char".toList, "CHAR".toList)]

/-- `SQLConverter.isTinyInt1` (lines 2103–2106): TINYINT of length 1, BIT,
or BOOLEAN — but not BOOL. -/
def isTinyInt1 (type length : Str) : Bool :=
  (jsToUpper type == "TINYINT".toList && jsLooseEqNat length 1) ||
    jsToUpper type == "BIT".toList || jsToUpper type == "BOOLEAN".toList

/-- `SQLConverter.isInteger` (lines 2114–2122). -/
def isInteger (type : Str) : Bool :=
  jsToUpper type == "TINYINT".toList || jsToUpper type == "SMALLINT".toList ||
    jsToUpper type == "MEDIUMINT".toList || jsToUpper type == "BIGINT".toList ||
    jsToUpper type == "INTEGER".toList || jsToUpper type == "INT".toList

/-- Case-insensitive prefix test. -/
def isPrefixOfCI (pat s : Str) : Bool :=
  (jsToLower pat).isPrefixOf (jsToLower s)

/-- Worker for `replaceAllCI` (fuel as in `replaceAllGo`). -/
def replaceAllCIGo (pat rep : Str) (fuel : Nat) (s : Str) : Str :=
  match fuel, s with
  | _, [] => []
  | 0, s => s
  | fuel + 1, c :: t =>
    if pat ≠ [] ∧ isPrefixOfCI pat (c :: t) then
      rep ++ replaceAllCIGo pat rep fuel ((c :: t).drop pat.length)
    else
      c :: replaceAllCIGo pat rep fuel t

/-- `SQLConverter.replaceAll` (lines 1878–1885): global case-insensitive
replacement of a literal pattern. -/
def replaceAllCI (pat rep s : Str) : Str :=
  replaceAllCIGo pat rep s.length s

/-- The first-match prefix scan over a dialect mapping table (the `for..in`
loop with `break`; the result defaults to `TEXT` when no key matches). -/
def scanTypeMap (tm : List (Str × Str)) (t : Str) (dflt : Str) : Str :=
  match tm with
  | [] => dflt
  | (k, v) :: rest =>
    if jsStartsWith (jsToLower t) (jsToLower k) then v else scanTypeMap rest t dflt

/-- The quoted-literal matches of `/'([^']+)'/g` (used by
`SQLConverter.parseEnumValue`, lines 2491–2508). -/
def enumMatches (fuel : Nat) (s : Str) : List Str :=
  match fuel, s with
  | _, [] => []
  | 0, _ => []
  | fuel + 1, c :: rest =>
    if c = '\'' then
      let content := rest.takeWhile (fun x => x ≠ '\'')
      if content ≠ [] ∧ (rest.drop content.length).head? = some '\'' then
        content :: enumMatches fuel (rest.drop (content.length + 1))
      else enumMatches fuel rest
    else enumMatches fuel rest

/-- `SQLConverter.parseEnumValue`: the matched literals and the maximum
literal length. -/
def parseEnumValue (input : Str) : List Str × Nat :=
  let resultArray := enumMatches input.length input
  (resultArray, resultArray.foldl (fun mx cur => if cur.length > mx then cur.length else mx) 0)

/-- The alphanumeric matches of `/([A-Za-z0-9_]+)/g` (used by
`SQLConverter.parseNumericType`, lines 2515–2532). -/
def numericMatches (fuel : Nat) (s : Str) : List Str :=
  match fuel, s with
  | _, [] => []
  | 0, _ => []
  | fuel + 1, c :: rest =>
    if isWordChar c then
      ((c :: rest).takeWhile (fun x => isWordChar x)) ::
        numericMatches fuel ((c :: rest).drop ((c :: rest).takeWhile (fun x => isWordChar x)).length)
    else numericMatches fuel rest

/-- `SQLConverter.parseNumericType`. -/
def parseNumericType (input : Str) : List Str × Nat :=
  let resultArray := numericMatches input.length input
  (resultArray, resultArray.foldl (fun mx cur => if cur.length > mx then cur.length else mx) 0)

/-- Decimal digits of a natural number. -/
def natToStr (n : Nat) : Str := Nat.toDigits 10 n

/-- `SQLConverter.toSqliteType` (lines 2385–2408). -/
def toSqliteType (type length : Str) : Str :=
  if isTinyInt1 type length then "BOOLEAN".toList
  else
    let sqliteType := scanTypeMap dbToSqlite type "TEXT".toList
    if jsIncludes (jsToUpper type) "ENUM".toList || jsIncludes (jsToUpper type) "SET".toList then
      "NVARCHAR(".toList ++ natToStr ((parseEnumValue length).2 + 2) ++ ")".toList
    else if (sqliteType == "NVARCHAR".toList || sqliteType == "INT".toList) &&
        jsLooseGtZero length then
      sqliteType ++ "(".toList ++ length ++ ")".toList
    else sqliteType

/-- `SQLConverter.toMySQLType` (lines 2417–2453). -/
def toMySQLType (type length : Str) (enumValues : List Str) : Str :=
  if isTinyInt1 type length then "TINYINT(1)".toList
  else if isInteger type && jsLooseGtZero length then
    type ++ "(".toList ++ length ++ ")".toList
  else
    let m1 := scanTypeMap dbToMySQL type "TEXT".toList
    let m2 := replaceAllCI "TIMESTAMPTZ".toList "TIMESTAMP".toList m1
    let m3 :=
      if jsIncludes (jsToUpper type) "ENUM".toList then
        "ENUM(".toList ++ ['\''] ++ List.intercalate ['\'', ',', '\''] enumValues ++
          ['\''] ++ ")".toList
      else if jsIncludes (jsToUpper type) "SET".toList then
        "SET(".toList ++ ['\''] ++ List.intercalate ['\'', ',', '\''] enumValues ++
          ['\''] ++ ")".toList
      else if jsIncludes (jsToUpper type) "DECIMAL".toList then
        "DECIMAL(".toList ++ List.intercalate [','] (parseNumericType length).1 ++ ")".toList
      else if jsIncludes (jsToUpper type) "NUMERIC".toList then
        "NUMERIC(".toList ++ List.intercalate [','] (parseNumericType length).1 ++ ")".toList
      else m2
    if (m3 == "VARCHAR".toList || m3 == "CHAR".toList) && jsLooseGtZero length then
      m3 ++ "(".toList ++ length ++ ")".toList
    else m3

/-- `SQLParser.toMySqlType` (src/js/SQLParser.js, lines 282–307): ordered
substring patterns against the trimmed upper-cased type; falls back to the
original string. -/
def toMySqlType (sqliteType : Str) : Str :=
  if sqliteType = [] then "TEXT".toList
  else
    let type := jsToUpper (jsTrim sqliteType)
    if jsIncludes type "NVARCHAR".toList then "VARCHAR".toList
    else if jsIncludes type "INT".toList then "BIGINT".toList
    else if jsIncludes type "CHAR".toList || jsIncludes type "CLOB".toList ||
        jsIncludes type "TEXT".toList then "TEXT".toList
    else if jsIncludes type "BLOB".toList then "BLOB".toList
    else if jsIncludes type "REAL".toList || jsIncludes type "FLOA".toList ||
        jsIncludes type "DOUB".toList then "DOUBLE".toList
    else if jsIncludes type "NUMERIC".toList || jsIncludes type "DECIMAL".toList then
      "DECIMAL".toList
    else if jsIncludes type "BOOLEAN".toList then "TINYINT".toList
    else if jsIncludes type "TIMESTAMP".toList then "TIMESTAMP".toList
    else if jsIncludes type "DATE".toList || jsIncludes type "TIME".toList then
      "DATETIME".toList
    else sqliteType

/-- Counterexample to C7 as stated: the source type `BOOL` is *not* treated
as boolean by the dialect converter — `isTinyInt1` recognizes only `TINYINT`
(length 1), `BIT` and `BOOLEAN`, and no mapping key is a prefix of `bool` —
so `BOOL` falls through to the `TEXT` default for both MySQL and SQLite
targets instead of `TINYINT(1)` / `BOOLEAN`. -/
theorem dialectBoolean_counterexample :
    isTinyInt1 "BOOL".toList "1".toList = false ∧
    toMySQLType "BOOL".toList "1".toList [] = "TEXT".toList ∧
    toSqliteType "BOOL".toList "1".toList = "TEXT".toList ∧
    ("TEXT".toList : Str) ≠ "TINYINT(1)".toList ∧
    ("TEXT".toList : Str) ≠ "BOOLEAN".toList := by
  decide

/-- C7 (amended): `BOOLEAN`, `BIT` (any length) and `TINYINT` with length
exactly 1 are treated as boolean regardless of the target-type lookup —
mapping to `TINYINT(1)` for a MySQL target and `BOOLEAN` for a SQLite
target — whereas `BOOL` is not: it misses `isTinyInt1`, matches no mapping
key and converts to `TEXT` for both targets. -/
theorem dialectBoolean_detection (len : Str) (ev : List Str) :
    toMySQLType "BOOLEAN".toList len ev = "TINYINT(1)".toList ∧
    toMySQLType "BIT".toList len ev = "TINYINT(1)".toList ∧
    toMySQLType "TINYINT".toList "1".toList ev = "TINYINT(1)".toList ∧
    toSqliteType "BOOLEAN".toList len = "BOOLEAN".toList ∧
    toSqliteType "BIT".toList len = "BOOLEAN".toList ∧
    toSqliteType "TINYINT".toList "1".toList = "BOOLEAN".toList ∧
    isTinyInt1 "BOOL".toList len = false ∧
    toMySQLType "BOOL".toList len ev = "TEXT".toList ∧
    toSqliteType "BOOL".toList len = "TEXT".toList := by
  have hboolean : isTinyInt1 "BOOLEAN".toList len = true := by
    unfold isTinyInt1
    rw [show (jsToUpper "BOOLEAN".toList == "BOOLEAN".toList) = true from by decide]
    simp
  have hbit : isTinyInt1 "BIT".toList len = true := by
    unfold isTinyInt1
    rw [show (jsToUpper "BIT".toList == "BIT".toList) = true from by decide]
    simp
  have hbool : isTinyInt1 "BOOL".toList len = false := by
    unfold isTinyInt1
    rw [show (jsToUpper "BOOL".toList == "TINYINT".toList) = false from by decide,
      show (jsToUpper "BOOL".toList == "BIT".toList) = false from by decide,
      show (jsToUpper "BOOL".toList == "BOOLEAN".toList) = false from by decide]
    simp
  have hint : isInteger "BOOL".toList = false := by decide
  have hm1 : scanTypeMap dbToMySQL "BOOL".toList "TEXT".toList = "TEXT".toList := by decide
  have hm2 : replaceAllCI "TIMESTAMPTZ".toList "TIMESTAMP".toList "TEXT".toList =
      "TEXT".toList := by decide
  have hinc1 : jsIncludes (jsToUpper "BOOL".toList) "ENUM".toList = false := by decide
  have hinc2 : jsIncludes (jsToUpper "BOOL".toList) "SET".toList = false := by decide
  have hinc3 : jsIncludes (jsToUpper "BOOL".toList) "DECIMAL".toList = false := by decide
  have hinc4 : jsIncludes (jsToUpper "BOOL".toList) "NUMERIC".toList = false := by decide
  have hfin1 : ("TEXT".toList == "VARCHAR".toList) = false := by decide
  have hfin2 : ("TEXT".toList == "CHAR".toList) = false := by decide
  have hsql1 : scanTypeMap dbToSqlite "BOOL".toList "TEXT".toList = "TEXT".toList := by decide
  have hsfin1 : ("TEXT".toList == "NVARCHAR".toList) = false := by decide
  have hsfin2 : ("TEXT".toList == "INT".toList) = false := by decide
  have hti : isTinyInt1 "TINYINT".toList "1".toList = true := by decide
  refine ⟨?_, ?_, ?_, ?_, ?_, by decide, hbool, ?_, ?_⟩
  · unfold toMySQLType
    rw [hboolean]
    simp
  · unfold toMySQLType
    rw [hbit]
    simp
  · unfold toMySQLType
    rw [hti]
    simp
  · unfold toSqliteType
    rw [hboolean]
    simp
  · unfold toSqliteType
    rw [hbit]
    simp
  · unfold toMySQLType
    rw [hbool, hint, hm1]
    simp +decide
  · unfold toSqliteType
    rw [hbool, hsql1]
    simp +decide

/-- Counterexample to C8 as stated: in `SQLConverter.toMySQLType`, a source
type matching no mapping entry and none of the special cases does *not* pass
through unchanged — the converter falls back to the initial `TEXT` value. -/
theorem toMySQLType_fallback_counterexample :
    toMySQLType "FOOBAR".toList [] [] = "TEXT".toList ∧
    ("TEXT".toList : Str) ≠ "FOOBAR".toList := by
  decide

/-- C8 (amended): the pass-through fallback belongs to `SQLParser.toMySqlType`
(the SQLite import path): every non-empty source type whose trimmed upper-case
form contains none of the mapping patterns is returned unchanged.  The
`SQLConverter` dialect tables instead fall back to `TEXT` (see the
counterexample). -/
theorem toMySqlType_passThrough (t : Str) (hne : t ≠ [])
    (h1 : jsIncludes (jsToUpper (jsTrim t)) "NVARCHAR".toList = false)
    (h2 : jsIncludes (jsToUpper (jsTrim t)) "INT".toList = false)
    (h3 : jsIncludes (jsToUpper (jsTrim t)) "CHAR".toList = false)
    (h4 : jsIncludes (jsToUpper (jsTrim t)) "CLOB".toList = false)
    (h5 : jsIncludes (jsToUpper (jsTrim t)) "TEXT".toList = false)
    (h6 : jsIncludes (jsToUpper (jsTrim t)) "BLOB".toList = false)
    (h7 : jsIncludes (jsToUpper (jsTrim t)) "REAL".toList = false)
    (h8 : jsIncludes (jsToUpper (jsTrim t)) "FLOA".toList = false)
    (h9 : jsIncludes (jsToUpper (jsTrim t)) "DOUB".toList = false)
    (h10 : jsIncludes (jsToUpper (jsTrim t)) "NUMERIC".toList = false)
    (h11 : jsIncludes (jsToUpper (jsTrim t)) "DECIMAL".toList = false)
    (h12 : jsIncludes (jsToUpper (jsTrim t)) "BOOLEAN".toList = false)
    (h13 : jsIncludes (jsToUpper (jsTrim t)) "TIMESTAMP".toList = false)
    (h14 : jsIncludes (jsToUpper (jsTrim t)) "DATE".toList = false)
    (h15 : jsIncludes (jsToUpper (jsTrim t)) "TIME".toList = false) :
    toMySqlType t = t := by
  unfold toMySqlType
  rw [if_neg hne]
  simp only [h1, h2, h3, h4, h5, h6, h7, h8, h9, h10, h11, h12, h13, h14, h15]
  simp

/-- Witness for C8: the unmapped type `UUID` passes through
`SQLParser.toMySqlType` unchanged. -/
theorem toMySqlType_passThrough_witness :
    toMySqlType "UUID".toList = "UUID".toList := by
  exact toMySqlType_passThrough "UUID".toList (by decide) (by decide) (by decide) (by decide)
    (by decide) (by decide) (by decide) (by decide) (by decide) (by decide) (by decide)
    (by decide) (by decide) (by decide) (by decide) (by decide)

/-!
## `TableParser.parseSQL` (src/js/TableParser.js, lines 804–892)

The two sparse JavaScript arrays `queryArray`/`delimiterArray` are modelled as
index-keyed association lists with most-recent-first lookup; `nquery` is a
JavaScript number (`Int`, starting at −1), converted with `toNat` at each
array access (it is never negative at an access). -/

/-- One parsed statement: its text and the delimiter that closed it. -/
structure SQLStatement where
  query : Str
  delimiter : Str
deriving DecidableEq, Repr

/-- `a[i] = v` on a sparse array modelled as an association list. -/
def setIdx (a : List (Nat × Str)) (i : Nat) (v : Str) : List (Nat × Str) :=
  (i, v) :: a

/-- `a[i]` (`none` for a hole). -/
def lookupIdx (a : List (Nat × Str)) (i : Nat) : Option Str :=
  List.lookup i a

/-- `a[i] += v` (an unreachable hole would coerce to the string
`undefined`, as JavaScript's `undefined + v` does). -/
def appendIdx (a : List (Nat × Str)) (i : Nat) (v : Str) : List (Nat × Str) :=
  setIdx a i ((lookupIdx a i).getD "undefined".toList ++ v)

/-- The mutable state of the second pass of `parseSQL`. -/
structure PState where
  append : Nat
  skip : Nat
  start : Int
  nquery : Int
  delimiter : Str
  queryArray : List (Nat × Str)
  delimiterArray : List (Nat × Str)

/-- One iteration of the statement-assembly loop of `parseSQL`. -/
def parseSQLStep (st0 : PState) (text : Str) : PState :=
  let st1 :=
    if text = [] ∧ st0.append = 1 then
      { st0 with queryArray := appendIdx st0.queryArray st0.nquery.toNat "\r\n".toList }
    else st0
  let st2 :=
    if st1.append = 0 then
      if jsStartsWith (jsTrim text) "--".toList then
        { st1 with skip := 1, nquery := st1.nquery + 1, start := 1, append := 0 }
      else { st1 with skip := 0 }
    else st1
  if st2.skip = 0 then
    let st3 :=
      if st2.start = 1 then
        { st2 with
          nquery := st2.nquery + 1
          queryArray := setIdx st2.queryArray (st2.nquery + 1).toNat []
          delimiterArray := setIdx st2.delimiterArray (st2.nquery + 1).toNat st2.delimiter
          start := 0 }
      else st2
    let st4 := { st3 with
      queryArray := appendIdx st3.queryArray st3.nquery.toNat (text ++ "\r\n".toList)
      delimiterArray := setIdx st3.delimiterArray st3.nquery.toNat st3.delimiter }
    let text1 := jsTrim text
    let startIdx : Int := (text1.length : Int) - (st4.delimiter.length : Int) - 1
    let st5 :=
      if jsIncludes (jsSubstringFrom text1 startIdx) st4.delimiter = true ∨
          text1 = st4.delimiter then
        { st4 with nquery := st4.nquery + 1, start := 1, append := 0 }
      else { st4 with start := 0, append := 1 }
    let st6 := { st5 with
      delimiterArray := setIdx st5.delimiterArray st5.nquery.toNat st5.delimiter }
    if jsStartsWith (jsToLower text1) "delimiter ".toList then
      let text2 := collapseWs (jsTrim text1)
      let parts := jsSplit text2 " ".toList
      let newDelim := ((parts.drop 1).head?).getD []
      { st6 with
        delimiter := newDelim
        nquery := st6.nquery + 1
        delimiterArray := setIdx st6.delimiterArray (st6.nquery + 1).toNat newDelim
        start := 1
        append := 0 }
    else st6
  else st2

/-- The initial state of the assembly loop. -/
def initPState : PState :=
  ⟨0, 0, 1, -1, [';'], [], []⟩

/-- The comment/blank line filter of the first pass (lines arrive already
trimmed): drop lines starting with the marker and a space, equal to the bare
marker, or empty. -/
def keepLine (v : Str) : Bool :=
  !jsStartsWith v "-- ".toList && !(v == "--".toList) && !(v == [])

/-- The final collection loop of `parseSQL`: visit the defined entries of
`queryArray` in index order, skip `DELIMITER` directives, trim and strip the
statement's closing delimiter. -/
def collectStatements (qa da : List (Nat × Str)) : List SQLStatement :=
  (List.range (maxListNat (qa.map (fun p => p.1)) + 1)).filterMap (fun i =>
    match lookupIdx qa i with
    | none => none
    | some q =>
      let delim := (lookupIdx da i).getD [';']
      if jsStartsWith (jsToLower q) "delimiter ".toList then none
      else
        let q1 := jsTrim q
        some ⟨jsSubstringTo q1 ((q1.length : Int) - (delim.length : Int)), delim⟩)

/-- The per-line stage of `TableParser.parseSQL`: trim each raw line, drop
comment and blank lines, fold the statement-accumulation step, collect. -/
def runLines (arr : List Str) : List SQLStatement :=
  let arr2 := (arr.map jsTrim).filter keepLine
  let final := arr2.foldl parseSQLStep initPState
  collectStatements final.queryArray final.delimiterArray

/-- `TableParser.parseSQL`: normalize line endings to CRLF, split into
lines, then run the per-line stage. -/
def parseSQL (sql : Str) : List SQLStatement :=
  runLines (jsSplit
    (replaceAllSub "\r\r\n".toList "\r\n".toList
      (replaceAllSub "\n".toList "\r\n".toList sql))
    "\r\n".toList)

/-!
### Behaviour of `parseSQL` on line-structured input
-/

/-- Join lines with a separator (the inverse image of the splitter). -/
def joinLines (sep : Str) : List Str → Str
  | [] => []
  | [l] => l
  | l :: l2 :: t => l ++ sep ++ joinLines sep (l2 :: t)

/-- A string containing two consecutive carriage returns. -/
def hasRR : Str → Bool
  | [] => false
  | [_] => false
  | a :: b :: t => (a = '\r' && b = '\r') || hasRR (b :: t)

theorem hasRR_cons (x : Char) (Y : Str) :
    hasRR (x :: Y) =
      match Y.head? with
      | some y => (decide (x = '\r') && decide (y = '\r')) || hasRR Y
      | none => false := by
  cases Y <;> simp [hasRR]

theorem hasRR_of_noCR (s : Str) (h : ∀ c ∈ s, c ≠ '\r') : hasRR s = false := by
  induction s with
  | nil => rfl
  | cons c t ih =>
    rw [hasRR_cons]
    cases ht : t.head? with
    | none => rfl
    | some y =>
      have hc : c ≠ '\r' := h c (by simp)
      have hrec := ih (fun x hx => h x (List.mem_cons_of_mem c hx))
      simp [hc, hrec]

theorem hasRR_append_noCR_left (a b : Str) (ha : ∀ c ∈ a, c ≠ '\r')
    (hb : hasRR b = false) : hasRR (a ++ b) = false := by
  induction a with
  | nil => simpa using hb
  | cons c a' ih =>
    rw [List.cons_append, hasRR_cons]
    have hc : c ≠ '\r' := ha c (by simp)
    have hrec := ih (fun x hx => ha x (List.mem_cons_of_mem c hx))
    cases hh : (a' ++ b).head? with
    | none => rfl
    | some y => simp [hc, hrec]

/-- Replacing a pattern that cannot occur (two consecutive `\r` are required
for `\r\r\n`) leaves the string unchanged, for any fuel. -/
theorem replaceAllGo_rrn_of_noRR (rep : Str) :
    ∀ (s : Str), hasRR s = false → ∀ fuel,
    replaceAllGo ['\r', '\r', '\n'] rep fuel s = s := by
  intro s
  induction s with
  | nil => intro _ fuel; cases fuel <;> rfl
  | cons c t ih =>
    intro hs fuel
    cases fuel with
    | zero => rfl
    | succ f =>
      have hcond : ¬(['\r', '\r', '\n'] ≠ [] ∧
          List.isPrefixOf ['\r', '\r', '\n'] (c :: t)) := by
        intro hc
        have hpre := hc.2
        cases t with
        | nil => simp [List.isPrefixOf] at hpre
        | cons d t' =>
          simp [List.isPrefixOf] at hpre
          rw [hasRR_cons] at hs
          simp [← hpre.1, ← hpre.2.1] at hs
      have hrec : hasRR t = false := by
        rw [hasRR_cons] at hs
        cases hh : t.head? with
        | none => cases t with
          | nil => rfl
          | cons x xs => simp at hh
        | some y =>
          rw [hh] at hs
          exact (Bool.or_eq_false_iff.mp hs).2
      rw [replaceAllGo, if_neg hcond, ih hrec f]

/-- Replacing a single-character pattern is a character-wise flat map. -/
theorem replaceAllGo_singleChar (p : Char) (rep : Str) :
    ∀ (s : Str) (fuel : Nat), s.length ≤ fuel →
    replaceAllGo [p] rep fuel s =
      s.flatMap (fun c => if c = p then rep else [c]) := by
  intro s
  induction s with
  | nil => intro fuel _; cases fuel <;> rfl
  | cons c t ih =>
    intro fuel hf
    cases fuel with
    | zero => simp at hf
    | succ f =>
      have hft : t.length ≤ f := by simp at hf; omega
      rw [replaceAllGo]
      by_cases hc : c = p
      · subst hc
        rw [if_pos]
        · have hdrop : (c :: t).drop [c].length = t := rfl
          rw [hdrop, ih f hft]
          simp
        · constructor
          · simp
          · simp [List.isPrefixOf]
      · rw [if_neg]
        · simp only [List.flatMap_cons, if_neg hc]
          rw [ih f hft]
          simp
        · intro hcontra
          have := hcontra.2
          simp [List.isPrefixOf] at this
          exact hc this.symm

theorem flatMap_noNL (l : Str) (h : ∀ c ∈ l, c ≠ '\n') :
    l.flatMap (fun c => if c = '\n' then ['\r', '\n'] else [c]) = l := by
  induction l with
  | nil => rfl
  | cons c t ih =>
    have hc : c ≠ '\n' := h c (by simp)
    have ht := ih (fun x hx => h x (List.mem_cons_of_mem c hx))
    simp [hc, ht]

/-- Normalizing newline-joined clean lines yields the CRLF join. -/
theorem flatMap_joinLines (L : List Str)
    (h : ∀ l ∈ L, ∀ c ∈ l, c ≠ '\n') :
    (joinLines ['\n'] L).flatMap
        (fun c => if c = '\n' then ['\r', '\n'] else [c]) =
      joinLines ['\r', '\n'] L := by
  induction L with
  | nil => rfl
  | cons l rest ih =>
    cases rest with
    | nil =>
      simp only [joinLines]
      exact flatMap_noNL l (h l (by simp))
    | cons l2 t =>
      have hl := flatMap_noNL l (h l (by simp))
      have ht := ih (fun x hx => h x (List.mem_cons_of_mem l hx))
      simp only [joinLines] at ht ⊢
      rw [List.flatMap_append, List.flatMap_append, hl, ht]
      simp

theorem hasRR_joinLines (L : List Str)
    (h : ∀ l ∈ L, ∀ c ∈ l, c ≠ '\r') :
    hasRR (joinLines ['\r', '\n'] L) = false := by
  induction L with
  | nil => rfl
  | cons l rest ih =>
    cases rest with
    | nil => exact hasRR_of_noCR l (h l (by simp))
    | cons l2 t =>
      have ht := ih (fun x hx => h x (List.mem_cons_of_mem l hx))
      simp only [joinLines] at ht ⊢
      have hmid : hasRR ('\r' :: '\n' :: joinLines ['\r', '\n'] (l2 :: t)) = false := by
        rw [hasRR, hasRR_cons]
        cases hh : (joinLines ['\r', '\n'] (l2 :: t)).head? with
        | none => simp
        | some y => simp [ht]
      have := hasRR_append_noCR_left l ('\r' :: '\n' :: joinLines ['\r', '\n'] (l2 :: t))
        (h l (by simp)) hmid
      simpa using this

theorem splitOnSub_nil (sep : Str) (fuel : Nat) (acc : Str) :
    splitOnSub sep fuel [] acc = [acc.reverse] := by
  cases fuel <;> rfl

/-- Scanning past a CR-free line accumulates it without splitting. -/
theorem splitOnSub_consumeLine :
    ∀ (l : Str), (∀ c ∈ l, c ≠ '\r') → ∀ (X : Str) (fuel : Nat) (acc : Str),
    l.length ≤ fuel →
    splitOnSub ['\r', '\n'] fuel (l ++ X) acc =
      splitOnSub ['\r', '\n'] (fuel - l.length) X (l.reverse ++ acc) := by
  intro l
  induction l with
  | nil => intro _ X fuel acc _; simp
  | cons c t ih =>
    intro h X fuel acc hf
    cases fuel with
    | zero => simp at hf
    | succ f =>
      have hc : c ≠ '\r' := h c (by simp)
      have hcond : ¬((['\r', '\n'] : Str) ≠ [] ∧
          List.isPrefixOf ['\r', '\n'] (c :: (t ++ X))) := by
        intro hcc
        have := hcc.2
        simp [List.isPrefixOf] at this
        exact hc this.1.symm
      rw [List.cons_append, splitOnSub, if_neg hcond]
      have hft : t.length ≤ f := by simp at hf; omega
      rw [ih (fun x hx => h x (List.mem_cons_of_mem c hx)) X f (c :: acc) hft]
      have harith : f + 1 - (c :: t).length = f - t.length := by
        simp [Nat.succ_sub_succ]
      have hacc : (c :: t).reverse ++ acc = t.reverse ++ (c :: acc) := by simp
      rw [harith, hacc]

/-- Hitting the CRLF separator emits the accumulated chunk. -/
theorem splitOnSub_sepStep (Y : Str) (fuel : Nat) (acc : Str) :
    splitOnSub ['\r', '\n'] (fuel + 1) ('\r' :: '\n' :: Y) acc =
      acc.reverse :: splitOnSub ['\r', '\n'] fuel Y [] := by
  have hcond : (['\r', '\n'] : Str) ≠ [] ∧
      List.isPrefixOf ['\r', '\n'] ('\r' :: '\n' :: Y) := by
    exact ⟨by simp, by simp [List.isPrefixOf]⟩
  rw [splitOnSub, if_pos hcond]
  rfl

/-- Splitting a CRLF-join of CR-free lines recovers the lines. -/
theorem splitOnSub_joinLines :
    ∀ (L : List Str), L ≠ [] → (∀ l ∈ L, ∀ c ∈ l, c ≠ '\r') →
    ∀ (fuel : Nat), (joinLines ['\r', '\n'] L).length ≤ fuel → ∀ (acc : Str),
    splitOnSub ['\r', '\n'] fuel (joinLines ['\r', '\n'] L) acc =
      (acc.reverse ++ L.headD []) :: L.tail := by
  intro L
  induction L with
  | nil => intro h; exact absurd rfl h
  | cons l rest ih =>
    intro _ hcl fuel hf acc
    cases rest with
    | nil =>
      simp only [joinLines] at hf ⊢
      have h1 := splitOnSub_consumeLine l (hcl l (by simp)) [] fuel acc hf
      simp only [List.append_nil] at h1
      rw [h1, splitOnSub_nil]
      simp
    | cons l2 t =>
      simp only [joinLines] at hf ⊢
      rw [List.append_assoc]
      have hlen : l.length ≤ fuel := by simp at hf; omega
      have h1 := splitOnSub_consumeLine l (hcl l (by simp))
        (['\r', '\n'] ++ joinLines ['\r', '\n'] (l2 :: t)) fuel acc hlen
      rw [h1]
      obtain ⟨g, hg⟩ : ∃ g, fuel - l.length = g + 1 := by
        have : 1 ≤ fuel - l.length := by simp at hf; omega
        exact ⟨fuel - l.length - 1, by omega⟩
      rw [hg]
      rw [show (['\r', '\n'] : Str) ++ joinLines ['\r', '\n'] (l2 :: t) =
        '\r' :: '\n' :: joinLines ['\r', '\n'] (l2 :: t) from rfl]
      rw [splitOnSub_sepStep]
      have hJ : (joinLines ['\r', '\n'] (l2 :: t)).length ≤ g := by
        simp at hf; omega
      rw [ih (by simp) (fun x hx => hcl x (List.mem_cons_of_mem l hx)) g hJ []]
      simp

theorem jsSplit_joinLines (L : List Str) (hL : L ≠ [])
    (hcl : ∀ l ∈ L, ∀ c ∈ l, c ≠ '\r') :
    jsSplit (joinLines ['\r', '\n'] L) ['\r', '\n'] = L := by
  unfold jsSplit
  rw [splitOnSub_joinLines L hL hcl _ le_rfl []]
  cases L with
  | nil => exact absurd rfl hL
  | cons a t => simp

/-- `parseSQL` of newline-joined CR/LF-free lines is the per-line stage on
exactly those lines: the normalization and split stages recover them. -/
theorem parseSQL_joinLines (L : List Str) (hL : L ≠ [])
    (hcl : ∀ l ∈ L, ∀ c ∈ l, c ≠ '\r' ∧ c ≠ '\n') :
    parseSQL (joinLines ['\n'] L) = runLines L := by
  have h1 : replaceAllSub "\n".toList "\r\n".toList (joinLines ['\n'] L) =
      joinLines ['\r', '\n'] L := by
    unfold replaceAllSub
    rw [show ("\n".toList : Str) = ['\n'] from rfl,
      show ("\r\n".toList : Str) = ['\r', '\n'] from rfl]
    rw [replaceAllGo_singleChar '\n' ['\r', '\n'] _ _ le_rfl]
    exact flatMap_joinLines L (fun l hl c hc => (hcl l hl c hc).2)
  have h2 : replaceAllSub "\r\r\n".toList "\r\n".toList
      (joinLines ['\r', '\n'] L) = joinLines ['\r', '\n'] L := by
    unfold replaceAllSub
    rw [show ("\r\r\n".toList : Str) = ['\r', '\r', '\n'] from rfl]
    exact replaceAllGo_rrn_of_noRR _ _
      (hasRR_joinLines L (fun l hl c hc => (hcl l hl c hc).1)) _
  unfold parseSQL
  rw [h1, h2, show ("\r\n".toList : Str) = ['\r', '\n'] from rfl,
    jsSplit_joinLines L hL (fun l hl c hc => (hcl l hl c hc).1)]

theorem runLines_discard (pre post : List Str) (l : Str)
    (hl : keepLine (jsTrim l) = false) :
    runLines (pre ++ [l] ++ post) = runLines (pre ++ post) := by
  unfold runLines
  rw [show (pre ++ [l] ++ post).map jsTrim =
    pre.map jsTrim ++ [jsTrim l] ++ post.map jsTrim from by simp]
  rw [show (pre ++ post).map jsTrim = pre.map jsTrim ++ post.map jsTrim from by simp]
  simp [List.filter_append, hl]

/-- C9 (counterexample): `parseSQL "SELECT 1\n\nFROM t;"` has a blank line
inside the statement in progress, yet the resulting statement text is
`"SELECT 1\r\nFROM t"` with a single line break — the blank line is
discarded, not preserved as a line break within the statement. -/
theorem parseSQL_blankLine_counterexample :
    parseSQL "SELECT 1\n\nFROM t;".toList =
      [⟨"SELECT 1\r\nFROM t".toList, ";".toList⟩] ∧
    ("SELECT 1\r\nFROM t".toList : Str) ≠ "SELECT 1\r\n\r\nFROM t".toList := by
  decide

/-- C9 (amended): in `parseSQL`, every input line whose trimmed content
begins with `"-- "`, equals `"--"`, or is blank is discarded before
statement accumulation: removing such a line from the line list leaves the
output statements unchanged. In particular blank lines inside a statement
in progress are dropped, not preserved as line breaks. -/
theorem parseSQL_discardsLine (pre post : List Str) (l : Str)
    (hclean : ∀ s ∈ pre ++ [l] ++ post, ∀ c ∈ s, c ≠ '\r' ∧ c ≠ '\n')
    (hjunk : jsStartsWith (jsTrim l) "-- ".toList = true ∨
      jsTrim l = "--".toList ∨ jsTrim l = [])
    (hne : pre ++ post ≠ []) :
    parseSQL (joinLines ['\n'] (pre ++ [l] ++ post)) =
      parseSQL (joinLines ['\n'] (pre ++ post)) := by
  have hclean2 : ∀ s ∈ pre ++ post, ∀ c ∈ s, c ≠ '\r' ∧ c ≠ '\n' := by
    intro s hs
    apply hclean
    rcases List.mem_append.mp hs with h | h
    · exact List.mem_append.mpr (Or.inl (List.mem_append.mpr (Or.inl h)))
    · exact List.mem_append.mpr (Or.inr h)
  have hne1 : pre ++ [l] ++ post ≠ ([] : List Str) := by simp
  rw [parseSQL_joinLines _ hne1 hclean, parseSQL_joinLines _ hne hclean2]
  apply runLines_discard
  rcases hjunk with h | h | h
  · rw [show ("-- ".toList : Str) = ['-', '-', ' '] from rfl] at h
    simp [keepLine, h]
  · rw [h]; decide
  · rw [h]; decide

/-- C9 (witness): dropping the comment line `-- note` from between two
statement lines leaves `parseSQL`'s output unchanged. -/
theorem parseSQL_discardsLine_witness :
    parseSQL (joinLines ['\n']
      (["SELECT 1".toList] ++ ["-- note".toList] ++ ["FROM t;".toList])) =
      parseSQL (joinLines ['\n'] (["SELECT 1".toList] ++ ["FROM t;".toList])) :=
  parseSQL_discardsLine ["SELECT 1".toList] ["FROM t;".toList] "-- note".toList
    (by decide) (Or.inl (by decide)) (by decide)

/-!
### A small backtracking regular-expression engine

`TableParser.parseTable` and `TableParser.parseInsertQuery` drive their work
through JavaScript regular expressions.  Every quantified subexpression of
the regexes they use is a character class, so repetition needs only class
stars (greedy or lazy) and the backtracking matcher below is structurally
recursive.  Alternatives are tried left to right and positions are scanned
left to right, as a JavaScript regex engine does.
-/

/-- Capture groups of a match: group index to captured text; the most
recent write (head of the list) wins. -/
abbrev Caps := List (Nat × Str)

def setCap (caps : Caps) (i : Nat) (v : Str) : Caps := (i, v) :: caps

def getCap (caps : Caps) (i : Nat) : Option Str :=
  match caps with
  | [] => none
  | (j, v) :: t => if j = i then some v else getCap t i

/-- Regular expressions whose starred subexpressions are character
classes. -/
inductive RE where
  | eps
  | cls (p : Char → Bool)
  | starCls (p : Char → Bool) (lazy : Bool)
  | seq (a b : RE)
  | alt (a b : RE)
  | grp (i : Nat) (a : RE)

/-- The part of `s` consumed before reaching the suffix `rem`. -/
def takeConsumed (s rem : Str) : Str := s.take (s.length - rem.length)

/-- Greedy class star: consume as many `p`-characters as possible, then on
failure of the continuation backtrack to shorter runs. -/
def starGreedy {A : Type} (p : Char → Bool) (s : Str) (caps : Caps)
    (k : Str → Caps → Option A) : Option A :=
  match s with
  | [] => k [] caps
  | c :: t =>
    if p c then
      match starGreedy p t caps k with
      | some r => some r
      | none => k (c :: t) caps
    else k (c :: t) caps

/-- Lazy class star: try the continuation first, consume a character only on
its failure. -/
def starLazy {A : Type} (p : Char → Bool) (s : Str) (caps : Caps)
    (k : Str → Caps → Option A) : Option A :=
  match k s caps with
  | some r => some r
  | none =>
    match s with
    | [] => none
    | c :: t => if p c then starLazy p t caps k else none

/-- The backtracking matcher in continuation-passing style: match `r`
against a prefix of `s`, calling `k` with the remainder and the captures. -/
def matchRE {A : Type} : RE → Str → Caps → (Str → Caps → Option A) → Option A
  | .eps, s, caps, k => k s caps
  | .cls p, s, caps, k =>
    match s with
    | [] => none
    | c :: t => if p c then k t caps else none
  | .starCls p false, s, caps, k => starGreedy p s caps k
  | .starCls p true, s, caps, k => starLazy p s caps k
  | .seq a b, s, caps, k => matchRE a s caps (fun s1 c1 => matchRE b s1 c1 k)
  | .alt a b, s, caps, k =>
    match matchRE a s caps k with
    | some r => some r
    | none => matchRE b s caps k
  | .grp i a, s, caps, k =>
    matchRE a s caps (fun s1 c1 => k s1 (setCap c1 i (takeConsumed s s1)))

/-- Leftmost unanchored search (`exec` on a fresh regex): the text before
the match, the matched text, the captures, and the remainder. -/
def searchFrom (r : RE) (s : Str) : Option (Str × Str × Caps × Str) :=
  match matchRE r s ([] : Caps)
      (fun rem caps => some (takeConsumed s rem, caps, rem)) with
  | some (m, caps, rem) => some ([], m, caps, rem)
  | none =>
    match s with
    | [] => none
    | c :: t =>
      match searchFrom r t with
      | some (pre, m, caps, rem) => some (c :: pre, m, caps, rem)
      | none => none

/-- `RegExp.prototype.test` of a regex without the `g` flag. -/
def testRE (r : RE) (s : Str) : Bool := (searchFrom r s).isSome

/-- An anchored `^...$` test. -/
def matchFullRE (r : RE) (s : Str) : Bool :=
  (matchRE r s ([] : Caps)
    (fun rem _ => if rem = [] then some () else none)).isSome

/-- All matches of a global regex: repeated `exec` with `lastIndex`
advancing past each match (bumping one position after an empty match). -/
def globalExecGo (r : RE) (fuel : Nat) (s : Str) : List (Str × Caps) :=
  match fuel with
  | 0 => []
  | fuel + 1 =>
    match searchFrom r s with
    | none => []
    | some (_, m, caps, rem) =>
      if m = [] then
        (m, caps) ::
          (match rem with
          | [] => []
          | _ :: t => globalExecGo r fuel t)
      else (m, caps) :: globalExecGo r fuel rem

def globalExec (r : RE) (s : Str) : List (Str × Caps) :=
  globalExecGo r (s.length + 1) s

/-- `RegExp.prototype.test` of a regex with the `g` flag: search from
`lastIndex`, advance it past the match on success, reset it to 0 on
failure. -/
def testG (r : RE) (s : Str) (lastIndex : Nat) : Bool × Nat :=
  if lastIndex > s.length then (false, 0)
  else
    match searchFrom r (s.drop lastIndex) with
    | none => (false, 0)
    | some (pre, m, _, _) => (true, lastIndex + pre.length + m.length)

/-- `String.prototype.replace` with a non-global regex pattern and a plain
replacement string. -/
def replaceREFirst (r : RE) (rep : Str) (s : Str) : Str :=
  match searchFrom r s with
  | none => s
  | some (pre, _, _, rem) => pre ++ rep ++ rem

/-- Global replace of a pattern beginning with a `\b` word boundary before a
word character: scan the positions whose predecessor is not a word
character. -/
def replaceWordBoundaryGo (r : RE) (rep : Str) (prevWord : Bool) (fuel : Nat)
    (s : Str) : Str :=
  match fuel, s with
  | _, [] => []
  | 0, s => s
  | fuel + 1, c :: t =>
    match (if prevWord then none
      else matchRE r (c :: t) ([] : Caps) (fun rem _ => some rem)) with
    | some rem =>
      let pw :=
        match (takeConsumed (c :: t) rem).getLast? with
        | some d => isWordChar d
        | none => prevWord
      rep ++ replaceWordBoundaryGo r rep pw fuel rem
    | none => c :: replaceWordBoundaryGo r rep (isWordChar c) fuel t

def replaceWordBoundary (r : RE) (rep : Str) (s : Str) : Str :=
  replaceWordBoundaryGo r rep false s.length s

/-!
### The regexes of `TableParser`, as `RE` trees
-/

/-- Case-insensitive literal (the `i` flag is set on every regex below that
contains letters). -/
def reLitCI (w : Str) : RE :=
  w.foldr (fun c r => .seq (.cls (fun d => d.toLower == c.toLower)) r) .eps

def reChar (c : Char) : RE := .cls (fun d => d == c)

/-- `\s` / `\s*` / `\s+` (greedy). -/
def reWs : RE := .cls isWsChar

def reWsStar : RE := .starCls isWsChar false

def rePlus (p : Char → Bool) : RE := .seq (.cls p) (.starCls p false)

def reWsPlus : RE := rePlus isWsChar

/-- `\w+` (greedy). -/
def reW : RE := rePlus isWordChar

/-- `.*` without the `s` flag (a dot matches no line terminator). -/
def reDotStar : RE := .starCls (fun c => !(c == '\n') && !(c == '\r')) false

/-- `.*` with the `s` flag. -/
def reDotAllStar : RE := .starCls (fun _ => true) false

def reSeqs (l : List RE) : RE := l.foldr .seq .eps

def reAlts : List RE → RE
  | [] => .eps
  | [r] => r
  | r :: rest => .alt r (reAlts rest)

/-- `(?:...)?` (greedy option). -/
def reOpt (r : RE) : RE := .alt r .eps

def reDigitsN (n : Nat) : RE := reSeqs (List.replicate n (.cls isDigitChar))

/-- `(create\s+table\s+if\s+not\s+exists|create\s+table)\s(?<tb>.*)\s\(`
(flags `gim`); `tb` is group 2. -/
def rg_tb : RE :=
  reSeqs [
    .grp 1 (.alt
      (reSeqs [reLitCI "create".toList, reWsPlus, reLitCI "table".toList,
        reWsPlus, reLitCI "if".toList, reWsPlus, reLitCI "not".toList,
        reWsPlus, reLitCI "exists".toList])
      (reSeqs [reLitCI "create".toList, reWsPlus, reLitCI "table".toList])),
    reWs,
    .grp 2 reDotStar,
    reWs,
    reChar '(']

/-- A `\w+\s+type.*` branch of `rg_fld`. -/
def reFldBranch (ty : Str) : RE :=
  reSeqs [reW, reWsPlus, reLitCI ty, reDotStar]

/-- A `\w+\s+type` branch of `rg_fld` (no trailing `.*`). -/
def reFldBare (ty : Str) : RE :=
  reSeqs [reW, reWsPlus, reLitCI ty]

/-- A `\w+\s+type\s*\(([^)]+)\)` branch of `rg_fld` with capture group `g`. -/
def reFldParen (ty : Str) (g : Nat) : RE :=
  reSeqs [reW, reWsPlus, reLitCI ty, reWsStar, reChar '(',
    .grp g (rePlus (fun c => !(c == ')'))), reChar ')']

/-- The big field alternation of `parseTable` (flags `gim`), group 1 wrapping
the whole alternation; the branches appear in source order. -/
def rg_fld : RE :=
  .grp 1 (reAlts [
    reSeqs [reLitCI "primary".toList, reWsPlus, reLitCI "key".toList,
      reWsStar, reChar '(', rePlus (fun c => !(c == ')')), reChar ')'],
    reFldBranch "key".toList,
    reFldBare "bigserial".toList,
    reFldBare "serial4".toList,
    reFldBare "serial8".toList,
    reFldBranch "tinyint".toList,
    reFldBranch "bigint".toList,
    reFldBranch "longtext".toList,
    reFldBranch "mediumtext".toList,
    reFldBranch "text".toList,
    reFldBranch "nvarchar".toList,
    reFldBranch "varchar".toList,
    reFldBranch "char".toList,
    reFldBranch "real".toList,
    reFldBranch "float".toList,
    reFldBranch "integer".toList,
    reFldBranch "int".toList,
    reFldBranch "datetime2".toList,
    reFldBranch "datetime".toList,
    reFldBranch "date".toList,
    reFldBranch "double".toList,
    reFldBranch "timestamp".toList,
    reFldBranch "timestamptz".toList,
    reFldBranch "boolean".toList,
    reFldBranch "bool".toList,
    reFldParen "enum".toList 2,
    reFldParen "set".toList 3,
    reFldParen "numeric".toList 4,
    reFldParen "decimal".toList 5,
    reFldParen "float".toList 6,
    reFldBranch "int2".toList,
    reFldBranch "int4".toList,
    reFldBranch "int8".toList,
    reFldBranch "time".toList,
    reFldBranch "uuid".toList,
    reFldBranch "money".toList,
    reFldBranch "blob".toList,
    reFldBranch "bit".toList,
    reFldBranch "json".toList])

/-- `(?<fname>\w+)\s+(?<ftype>\w+)(?<fattr>.*)` (`fname`/`ftype`/`fattr` are
groups 1/2/3). -/
def rg_fld2 : RE :=
  reSeqs [.grp 1 reW, reWsPlus, .grp 2 reW, .grp 3 reDotStar]

def rg_enum : RE :=
  reSeqs [reLitCI "enum".toList, reWsStar, reChar '(',
    .grp 1 (rePlus (fun c => !(c == ')'))), reChar ')']

def rg_set : RE :=
  reSeqs [reLitCI "set".toList, reWsStar, reChar '(',
    .grp 1 (rePlus (fun c => !(c == ')'))), reChar ')']

def rg_numeric : RE :=
  reSeqs [reLitCI "numeric".toList, reWsStar, reChar '(',
    .grp 1 (rePlus (fun c => !(c == ')'))), reChar ')']

def rg_decimal : RE :=
  reSeqs [reLitCI "decimal".toList, reWsStar, reChar '(',
    .grp 1 (rePlus (fun c => !(c == ')'))), reChar ')']

def rg_not_null : RE :=
  reSeqs [reLitCI "not".toList, reWsPlus, reLitCI "null".toList]

def rg_pk : RE :=
  reSeqs [reLitCI "primary".toList, reWsPlus, reLitCI "key".toList]

/-- `default\s+([^'"]+|'[^']*'|"[^"]*")\s*(comment\s+'[^']*')?`. -/
def rg_fld_def : RE :=
  reSeqs [reLitCI "default".toList, reWsPlus,
    .grp 1 (reAlts [
      rePlus (fun c => !(c == '\'') && !(c == '"')),
      reSeqs [reChar '\'', .starCls (fun c => !(c == '\'')) false, reChar '\''],
      reSeqs [reChar '"', .starCls (fun c => !(c == '"')) false, reChar '"']]),
    reWsStar,
    reOpt (.grp 2 (reSeqs [reLitCI "comment".toList, reWsPlus, reChar '\'',
      .starCls (fun c => !(c == '\'')) false, reChar '\'']))]

/-- `COMMENT\s*'([^']*)'`. -/
def rg_fld_comment : RE :=
  reSeqs [reLitCI "comment".toList, reWsStar, reChar '\'',
    .grp 1 (.starCls (fun c => !(c == '\'')) false), reChar '\'']

/-- `(PRIMARY|UNIQUE) KEY[a-zA-Z_0-9\s]+\(([a-zA-Z_0-9,\s]+)\)` (flags
`gi`, so its `lastIndex` persists across `test` calls). -/
def rg_pk2 : RE :=
  reSeqs [.grp 1 (.alt (reLitCI "primary".toList) (reLitCI "unique".toList)),
    reChar ' ', reLitCI "key".toList,
    rePlus (fun c => isWordChar c || isWsChar c),
    reChar '(',
    .grp 2 (rePlus (fun c => isWordChar c || isWsChar c || c == ',')),
    reChar ')']

def rg_pk_composite : RE :=
  reSeqs [reLitCI "primary".toList, reWsPlus, reLitCI "key".toList, reWsStar,
    reChar '(', .grp 1 (rePlus (fun c => !(c == ')'))), reChar ')']

/-- `\((.*)\)`. -/
def reParenAny : RE :=
  reSeqs [reChar '(', .grp 1 reDotStar, reChar ')']

/-- `\((\d+)\)`. -/
def reLenParen : RE :=
  reSeqs [reChar '(', .grp 1 (rePlus isDigitChar), reChar ')']

/-- The part of `(\bnvarchar\s*)\(\s*max\s*\)` after the word boundary. -/
def reNvarcharMax : RE :=
  reSeqs [reLitCI "nvarchar".toList, reWsStar, reChar '(', reWsStar,
    reLitCI "max".toList, reWsStar, reChar ')']

def reVarcharMax : RE :=
  reSeqs [reLitCI "varchar".toList, reWsStar, reChar '(', reWsStar,
    reLitCI "max".toList, reWsStar, reChar ')']

/-- `INSERT INTO\s+(...)\s*(?:\(([^)]*?)\))?\s*VALUES\s*(.*)` (flags `is`). -/
def insertRegex : RE :=
  reSeqs [reLitCI "INSERT INTO".toList, reWsPlus,
    .grp 1 (reAlts [
      reSeqs [reChar '`', rePlus (fun c => !(c == '`')), reChar '`'],
      reSeqs [reChar '[', rePlus (fun c => !(c == ']')), reChar ']'],
      reSeqs [reChar '"', rePlus (fun c => !(c == '"')), reChar '"'],
      rePlus (fun c => isWordChar c || c == '.')]),
    reWsStar,
    reOpt (reSeqs [reChar '(',
      .grp 2 (.starCls (fun c => !(c == ')')) true), reChar ')']),
    reWsStar,
    reLitCI "VALUES".toList, reWsStar,
    .grp 3 reDotAllStar]

/-- ``(`[^`]+`|\[[^\]]+\]|"[^"]+"|[^,]+)`` (flag `g`), the column-name
tokenizer of `parseInsertQuery`. -/
def colRegex : RE :=
  .grp 1 (reAlts [
    reSeqs [reChar '`', rePlus (fun c => !(c == '`')), reChar '`'],
    reSeqs [reChar '[', rePlus (fun c => !(c == ']')), reChar ']'],
    reSeqs [reChar '"', rePlus (fun c => !(c == '"')), reChar '"'],
    rePlus (fun c => !(c == ','))])

/-- `\d{4}-\d{2}-\d{2}\s+\d{2}:\d{2}:\d{2}\.\d{6}`. -/
def reDateTimeMicro : RE :=
  reSeqs [reDigitsN 4, reChar '-', reDigitsN 2, reChar '-', reDigitsN 2,
    reWsPlus, reDigitsN 2, reChar ':', reDigitsN 2, reChar ':', reDigitsN 2,
    reChar '.', reDigitsN 6]

/-- `\d{4}-\d{2}-\d{2}\s+\d{2}:\d{2}:\d{2}`. -/
def reDateTimeRE : RE :=
  reSeqs [reDigitsN 4, reChar '-', reDigitsN 2, reChar '-', reDigitsN 2,
    reWsPlus, reDigitsN 2, reChar ':', reDigitsN 2, reChar ':', reDigitsN 2]

/-- `\d{4}-\d{2}-\d{2}`. -/
def reDateRE : RE :=
  reSeqs [reDigitsN 4, reChar '-', reDigitsN 2, reChar '-', reDigitsN 2]

/-- `\d{2}:\d{2}:\d{2}`. -/
def reTimeRE : RE :=
  reSeqs [reDigitsN 2, reChar ':', reDigitsN 2, reChar ':', reDigitsN 2]

/-- `^CURRENT_TIMESTAMP\s+ON\s+UPDATE\s+CURRENT_TIMESTAMP$` (under
`matchFullRE`). -/
def reCtOnUpdate : RE :=
  reSeqs [reLitCI "CURRENT_TIMESTAMP".toList, reWsPlus, reLitCI "ON".toList,
    reWsPlus, reLitCI "UPDATE".toList, reWsPlus,
    reLitCI "CURRENT_TIMESTAMP".toList]

/-- `^CURRENT_TIMESTAMP\s+ON\s+INSERT\s+CURRENT_TIMESTAMP$` (under
`matchFullRE`). -/
def reCtOnInsert : RE :=
  reSeqs [reLitCI "CURRENT_TIMESTAMP".toList, reWsPlus, reLitCI "ON".toList,
    reWsPlus, reLitCI "INSERT".toList, reWsPlus,
    reLitCI "CURRENT_TIMESTAMP".toList]

/-!
### `TableParser.parseTable` and its helpers
-/

/-- The valid-type list built by `TableParser.init`. -/
def typeList : List Str :=
  ["TIMESTAMPTZ", "TIMESTAMP", "SERIAL4", "BIGSERIAL", "INT2", "INT4", "INT8",
   "TINYINT", "BIGINT", "LONGTEXT", "MEDIUMTEXT", "TEXT", "NVARCHAR",
   "VARCHAR", "ENUM", "SET", "NUMERIC", "DECIMAL", "CHAR", "REAL", "FLOAT",
   "INTEGER", "INT", "DATETIME2", "DATETIME", "DATE", "DOUBLE", "BOOLEAN",
   "BOOL", "TIME", "UUID", "MONEY", "BLOB", "BIT", "JSON"].map String.toList

/-- `TableParser.isValidType`. -/
def isValidType (dataType : Str) : Bool :=
  typeList.contains (jsToUpper dataType)

/-- `TableParser.isPrimaryKey`. -/
def isPrimaryKey (field : Str) : Bool :=
  jsIncludes (jsTrim (collapseWs (jsToUpper field))) "PRIMARY KEY".toList

/-- `TableParser.isAutoIncrement`. -/
def isAutoIncrement (line : Str) : Bool :=
  let f := jsTrim (collapseWs (jsToUpper line))
  (jsIncludes f "AUTO_INCREMENT".toList || jsIncludes f "AUTOINCREMENT".toList)
    || (jsIncludes f "SERIAL".toList || jsIncludes f "BIGSERIAL".toList
      || jsIncludes f "NEXTVAL".toList)

/-- `TableParser.getLength`. -/
def getLength (text : Str) : Str :=
  if jsIncludes text "(".toList && jsIncludes text ")".toList then
    match searchFrom reLenParen text with
    | some (_, _, caps, _) => (getCap caps 1).getD []
    | none => []
  else []

/-- `TableParser.isBoolean` (`length == 1` is JavaScript loose equality of
the length string against the number 1). -/
def isBoolean (dataType length : Str) : Bool :=
  jsIncludes (jsToUpper dataType) "BOOL".toList
    || (jsIncludes (jsToUpper dataType) "TINYINT".toList
      && jsLooseEqNat length 1)

/-- `TableParser.toBoolean`. -/
def toBoolean (defaultValue : Str) : Str :=
  if jsIncludes (jsToUpper defaultValue) "TRUE".toList
      || jsIncludes defaultValue "1".toList
  then "TRUE".toList else "FALSE".toList

/-- `TableParser.isInQuotes`. -/
def isInQuotes (defaultValue : Str) : Bool :=
  jsStartsWith defaultValue "'".toList && jsEndsWith defaultValue "'".toList

/-- `TableParser.isNumber` (`!isNaN(v) && v !== ''`). -/
def isNumber (defaultValue : Str) : Bool :=
  (jsNumberOfString defaultValue).isSome && !(defaultValue == [])

/-- `TableParser.isDateTime`. -/
def isDateTime (defaultValue : Str) : Bool :=
  testRE reDateTimeMicro defaultValue || testRE reDateTimeRE defaultValue
    || testRE reDateRE defaultValue || testRE reTimeRE defaultValue

/-- `TableParser.createDate` (including the source's `length-3` slice in the
`endsWith`-only branch). -/
def createDate (defaultValue : Option Str) : Option Str :=
  match defaultValue with
  | none => none
  | some dv0 =>
    let dv := jsTrim dv0
    let dv2 :=
      if isInQuotes dv then (dv.drop 1).dropLast
      else if jsStartsWith dv "'".toList then dv.drop 1
      else if jsEndsWith dv "'".toList then
        jsSubstringTo dv ((dv.length : Int) - 3)
      else dv
    some ('\'' :: (dv2 ++ ['\'']))

/-- `TableParser.fixDefaultValue` (`if (defaultValue)` is JavaScript
truthiness: both `null` and the empty string fall to the `null` branch). -/
def fixDefaultValue (defaultValue : Option Str) (dataType length : Str) :
    Option Str :=
  match defaultValue with
  | none => none
  | some dv =>
    if dv = [] then none
    else if isBoolean dataType length then some (toBoolean dv)
    else if jsIncludes (jsToUpper dv) "NULL".toList then some "NULL".toList
    else if isNumber dv then some ('\'' :: (dv ++ ['\'']))
    else if jsToUpper dv == "CURRENT_TIMESTAMP".toList
        || jsToUpper dv == "NOW()".toList then some (jsToUpper dv)
    else if isDateTime dv then createDate (some dv)
    else if jsStartsWith (jsToUpper dv) "TRUE".toList then some "TRUE".toList
    else if jsStartsWith (jsToUpper dv) "FALSE".toList then some "FALSE".toList
    else if matchFullRE reCtOnUpdate dv then some (jsToUpper dv)
    else if matchFullRE reCtOnInsert dv then some (jsToUpper dv)
    else some dv

/-- A parsed column of `parseTable` (the source's `Type` property is named
`Typ` because `Type` is reserved in Lean). -/
structure PTColumn where
  Field : Str
  Typ : Str
  Length : Str
  Key : Bool
  Nullable : Bool
  Default : Option Str
  AutoIncrement : Bool
  EnumValues : Option (List Str)
  Comment : Option Str
deriving DecidableEq, Repr

/-- `TableParser.updatePrimaryKey`. -/
def updatePrimaryKey (fieldList : List PTColumn) (primaryKey : Str) :
    List PTColumn :=
  fieldList.map (fun field =>
    if jsTrim primaryKey == jsTrim field.Field then { field with Key := true }
    else field)

/-- The `fieldList[i]['Key'] = true` passes of the `parseTable` loop. -/
def setKeyWhere (p : Str → Bool) (fl : List PTColumn) : List PTColumn :=
  fl.map (fun c => if p c.Field then { c with Key := true } else c)

/-- `replace(/[\r\n]+/g, ' ')`: each run of line terminators becomes one
space. -/
def replNLGo (inRun : Bool) : Str → Str
  | [] => []
  | c :: t =>
    if c == '\n' || c == '\r' then
      if inRun then replNLGo true t else ' ' :: replNLGo true t
    else c :: replNLGo false t

def replaceNLRuns (s : Str) : Str := replNLGo false s

/-- `enumValues.split(',').map(val => val.trim().replace(/['"]/g, ''))`. -/
def enumSplit (ev : Str) : List Str :=
  (jsSplit ev ",".toList).map
    (fun v => (jsTrim v).filter (fun c => !(c == '\'') && !(c == '"')))

/-- Group 1 of the first match, `none` when the regex does not match. -/
def execGroup1 (r : RE) (s : Str) : Option Str :=
  match searchFrom r s with
  | some (_, _, caps, _) => getCap caps 1
  | none => none

/-- The mutable state of the `parseTable` field loop.  `pk2last` is the
`lastIndex` of the global regex `rg_pk2`, which persists across loop
iterations. -/
structure PTState where
  fieldList : List PTColumn
  primaryKey : Option Str
  columnList : List Str
  primaryKeyList : List Str
  pk2last : Nat
deriving DecidableEq, Repr

/-- The `enumArray` chain of the `parseTable` loop body: the first of
`rg_enum`, `rg_set`, `rg_numeric`, `rg_decimal` that matches `line`. -/
def enumArrayOf (line : Str) : Option (List Str) :=
  match execGroup1 rg_enum line with
  | some ev => some (enumSplit ev)
  | none =>
    match execGroup1 rg_set line with
    | some ev => some (enumSplit ev)
    | none =>
      match execGroup1 rg_numeric line with
      | some ev => some (enumSplit ev)
      | none =>
        match execGroup1 rg_decimal line with
        | some ev => some (enumSplit ev)
        | none => none

/-- The column-collection stage of the `parseTable` loop body (the
`isValidType` conditional with its `else if (isPrimaryKey(line))`
branch). -/
def ptStepField (st : PTState) (m : Str × Caps) (fdCaps : Caps) : PTState :=
  let f := m.1
  let line := replaceNLRuns f
  let dataType := (getCap fdCaps 2).getD []
  let dataTypeOriginal := dataType
  let columnName := jsTrim ((getCap fdCaps 1).getD [])
  let enumArray := enumArrayOf line
  if isValidType dataType || isValidType dataTypeOriginal then
        let attr := jsTrim (replaceFirstSub ",".toList []
          ((getCap fdCaps 3).getD []))
        let nullable := !(testRE rg_not_null attr)
        let attr2 := replaceREFirst rg_not_null [] attr
        let isPk := testRE rg_pk attr2 || isPrimaryKey line
        let isAi := isAutoIncrement line
        let defaultValue : Option Str :=
          match searchFrom rg_fld_def attr2 with
          | some (_, _, caps, _) =>
            match getCap caps 1 with
            | some g1 => if g1 = [] then none else some (jsTrim g1)
            | none => none
          | none => none
        let length := getLength attr
        let length :=
          if length == [] && enumArray.isSome then
            '\'' :: (joinLines "','".toList (enumArray.getD []) ++ ['\''])
          else length
        let defaultValue := fixDefaultValue defaultValue dataType length
        let comment : Option Str :=
          match searchFrom rg_fld_comment attr2 with
          | some (_, _, caps, _) =>
            match getCap caps 1 with
            | some g1 => if g1 = [] then none else some (jsTrim g1)
            | none => none
          | none => none
        let dataType := jsTrim dataType
        let primaryKeyList :=
          if isPk then st.primaryKeyList ++ [columnName]
          else st.primaryKeyList
        if !(st.columnList.contains columnName) then
          let nullable := if isPk then false else nullable
          let column : PTColumn :=
            ⟨columnName, dataType, length, isPk, nullable, defaultValue,
              isAi, enumArray, comment⟩
          { st with
            fieldList := st.fieldList ++ [column]
            columnList := st.columnList ++ [columnName]
            primaryKeyList := primaryKeyList }
        else { st with primaryKeyList := primaryKeyList }
      else
        if isPrimaryKey line then
          if st.primaryKey.isNone then
            let text := (getCap m.2 1).getD []
            match searchFrom reParenAny text with
            | some (_, _, caps, _) =>
              { st with primaryKey := some ((getCap caps 1).getD []) }
            | none => { st with primaryKey := none }
          else st
        else st
/-- The `primaryKey != null` paren-stripping pass of the loop body. -/
def ptStepPkStrip (st : PTState) : PTState :=
  match st.primaryKey with
  | some pk =>
    let pk := pk.filter (fun c => !(c == '(') && !(c == ')'))
    { st with
      primaryKey := some pk
      fieldList := setKeyWhere (fun fld => fld == pk) st.fieldList }
  | none => st

/-- The `rg_pk2.test(f) && rg_pk.test(f)` pass; `rg_pk2` is global, so its
`lastIndex` (`pk2last`) is read and updated here on every iteration. -/
def ptStepPk2 (st : PTState) (f : Str) : PTState :=
  let tg := testG rg_pk2 f st.pk2last
  if tg.1 && testRE rg_pk f then
    match searchFrom rg_pk f with
    | some (_, mm, _, _) =>
      let x := replaceFirstSub mm [] f
      let x := replaceFirstSub "(".toList [] x
      let x := replaceFirstSub ")".toList [] x
      let pkeys := (jsSplit x ",".toList).map jsTrim
      { st with
        fieldList := setKeyWhere (fun fld => pkeys.contains fld) st.fieldList
        pk2last := tg.2 }
    | none => { st with pk2last := tg.2 }
  else { st with pk2last := tg.2 }

/-- The composite `primary key (...)` pass of the loop body. -/
def ptStepComposite (st : PTState) (line : Str) : PTState :=
  if testRE rg_pk_composite line then
    match execGroup1 rg_pk_composite line with
    | some g1 =>
      let pkeys := (jsSplit g1 ",".toList).map jsTrim
      { st with
        primaryKeyList := st.primaryKeyList ++ pkeys
        fieldList := setKeyWhere (fun fld => pkeys.contains fld)
          st.fieldList }
    | none => st
  else st

/-- One iteration of the `while ((result = rg_fld.exec(sql)) != null)` loop
of `parseTable`; `m` is the match (text and captures).  `none` models the
`TypeError` thrown when `rg_fld2` fails to match (impossible for actual
`rg_fld` matches, all of which contain two words). -/
def ptStep (st : PTState) (m : Str × Caps) : Option PTState :=
  match searchFrom rg_fld2 m.1 with
  | none => none
  | some (_, _, fdCaps, _) =>
    some (ptStepComposite
      (ptStepPk2 (ptStepPkStrip (ptStepField st m fdCaps)) m.1)
      (replaceNLRuns m.1))

/-- The result object of `parseTable`. -/
structure PTResult where
  tableName : Str
  columns : List PTColumn
  primaryKey : Option Str
deriving DecidableEq, Repr

/-- `TableParser.parseTable`; `none` models a thrown `TypeError` (`rg_tb`
not matching, or an `rg_fld2` failure inside the loop). -/
def parseTable (sql0 : Str) : Option PTResult :=
  let sql1 := replaceWordBoundary reNvarcharMax "TEXT".toList sql0
  let sql := replaceWordBoundary reVarcharMax "TEXT".toList sql1
  match searchFrom rg_tb sql with
  | none => none
  | some (_, _, tbCaps, _) =>
    let tableName := (getCap tbCaps 2).getD []
    match (globalExec rg_fld sql).foldlM ptStep ⟨[], none, [], [], 0⟩ with
    | none => none
    | some st =>
      let primaryKey :=
        if st.primaryKey.isNone && st.primaryKeyList.length > 0 then
          st.primaryKeyList.head?
        else st.primaryKey
      let fieldList :=
        match primaryKey with
        | some pk => updatePrimaryKey st.fieldList pk
        | none => st.fieldList
      some ⟨tableName, fieldList, primaryKey⟩

/-!
### `TableParser.parseInsertQuery`
-/

/-- `replace(/^[`\["]|[`\]"]$/g, '')`: strip one leading and one trailing
name-quoting character. -/
def stripEdgeQuotes (s : Str) : Str :=
  let s1 :=
    match s with
    | [] => []
    | c :: t => if c == '`' || c == '[' || c == '"' then t else c :: t
  match s1.getLast? with
  | some d => if d == '`' || d == ']' || d == '"' then s1.dropLast else s1
  | none => s1

/-- `obj[key] = value` on an object modelled as an ordered association
list: an existing key keeps its position and gets the new value, a new key
is appended. -/
def setAssoc : List (Str × Option JSValue) → Str → Option JSValue →
    List (Str × Option JSValue)
  | [], k, v => [(k, v)]
  | (k0, v0) :: t, k, v =>
    if k0 == k then (k0, v) :: t else (k0, v0) :: setAssoc t k v

/-- The zipping loop `for (i < columns.length) obj[columns[i]] = values[i]`;
a missing value is JavaScript `undefined`, modelled as `none`. -/
def zipObj (columns : List Str) (values : List JSValue) :
    List (Str × Option JSValue) :=
  (List.range columns.length).foldl
    (fun obj i => setAssoc obj (columns.getD i []) (values.get? i)) []

/-- The result object of `parseInsertQuery`. -/
structure InsertResult where
  tableName : Str
  columns : List Str
  rows : List (List (Str × Option JSValue))
deriving DecidableEq, Repr

/-- Outcome of `parseInsertQuery`: the JavaScript `null` return, a thrown
`TypeError` (`match[2].match(...)` returning `null`), or a result. -/
inductive InsertParse where
  | nullResult
  | thrown
  | ok (r : InsertResult)
deriving DecidableEq, Repr

/-- `TableParser.parseInsertQuery`. -/
def parseInsertQuery (query : Str) : InsertParse :=
  let trimmedQuery := jsTrim query
  match searchFrom insertRegex trimmedQuery with
  | none => .nullResult
  | some (_, _, caps, _) =>
    let tableName := stripEdgeQuotes ((getCap caps 1).getD [])
    let colsRes : Option (List Str) :=
      match getCap caps 2 with
      | none => some []
      | some g2 =>
        if g2 = [] then some []
        else
          match globalExec colRegex g2 with
          | [] => none
          | ms => some (ms.map (fun mc => stripEdgeQuotes (jsTrim mc.1)))
    match colsRes with
    | none => .thrown
    | some columns =>
      let valueSection := (getCap caps 3).getD []
      let rowStrings := extractRowStrings valueSection
      let rawRows := rowStrings.map parseRow
      let rows := rawRows.map (fun values => zipObj columns values)
      .ok ⟨tableName, columns, rows⟩

/-- C4 (counterexample): in a table whose two columns both carry inline
`PRIMARY KEY` markers, the `id INTEGER PRIMARY KEY AUTOINCREMENT` column is
still classified `AutoIncrement = true` — the auto-increment flag is
computed from the column's own line only, with no suppression for tables
with several primary-key markers. -/
theorem parseTable_autoIncrement_counterexample :
    parseTable ("CREATE TABLE t (\n\tid INTEGER PRIMARY KEY AUTOINCREMENT," ++
        "\n\tuser_id INT PRIMARY KEY\n)").toList =
      some ⟨"t".toList,
        [⟨"id".toList, "INTEGER".toList, [], true, false, none, true, none,
          none⟩,
         ⟨"user_id".toList, "INT".toList, [], true, false, none, false, none,
          none⟩],
        some "id".toList⟩ := by
  decide

/-- C5 (code bug): a column made primary retroactively by a table-level
`PRIMARY KEY (b)` constraint keeps `Nullable = true`: the passes that set
`Key := true` after the fact never clear the nullable flag, violating the
spec's invariant that a primary-key column is not nullable. -/
theorem parseTable_pkNullable_bug :
    parseTable "CREATE TABLE t2 (\n\tb INT,\n\tPRIMARY KEY (b)\n)".toList =
      some ⟨"t2".toList,
        [⟨"b".toList, "INT".toList, [], true, true, none, false, none, none⟩],
        some "b".toList⟩ := by
  decide

/-- C10 (counterexample): for an `INSERT` without a column list the parsed
positional values are not carried in the result: the value section parses
to the row `[1, 2]`, yet `rows` is `[[]]` — one empty object, the
positional array discarded by the zipping loop over zero columns. -/
theorem parseInsertQuery_noColumns_counterexample :
    parseInsertQuery "INSERT INTO t VALUES (1,2)".toList =
      .ok ⟨"t".toList, [], [[]]⟩ ∧
    extractRowStrings "(1,2)".toList = ["1,2".toList] ∧
    parseRow "1,2".toList = [.vnum ⟨1, 0⟩, .vnum ⟨2, 0⟩] := by
  decide

theorem setAssoc_fresh (obj : List (Str × Option JSValue)) (k : Str)
    (v : Option JSValue) (h : ∀ e ∈ obj, e.1 ≠ k) :
    setAssoc obj k v = obj ++ [(k, v)] := by
  induction obj with
  | nil => rfl
  | cons e t ih =>
    have hk : (e.1 == k) = false := beq_eq_false_iff_ne.mpr (h e (by simp))
    cases e with
    | mk k0 v0 =>
      simp only [setAssoc, hk] at *
      rw [if_neg (by simp [hk])]
      rw [ih (fun x hx => h x (List.mem_cons_of_mem _ hx))]
      simp

/-- The zipping fold over a distinct index range appends the positional
pairs in order. -/
theorem zipObj_go (cols : List Str) (values : List JSValue) :
    ∀ (d k : Nat), d = cols.length - k →
    ∀ (obj : List (Str × Option JSValue)),
    (∀ e ∈ obj, ∀ j, k ≤ j → j < cols.length → e.1 ≠ cols.getD j []) →
    (∀ i j, k ≤ i → i < j → j < cols.length →
      cols.getD i [] ≠ cols.getD j []) →
    (List.range' k d).foldl
        (fun o i => setAssoc o (cols.getD i []) (values.get? i)) obj =
      obj ++ (List.range' k d).map
        (fun i => (cols.getD i [], values.get? i)) := by
  intro d
  induction d with
  | zero => intro k _ obj _ _; simp
  | succ d ih =>
    intro k hd obj hfresh hinj
    have hk : k < cols.length := by omega
    rw [List.range'_succ, List.foldl_cons]
    rw [setAssoc_fresh obj (cols.getD k []) (values.get? k)
      (fun e he => hfresh e he k le_rfl hk)]
    rw [ih (k + 1) (by omega) (obj ++ [(cols.getD k [], values.get? k)])
      ?fr ?inj]
    · simp [List.range'_succ]
    case fr =>
      intro e he j hj hjl
      rcases List.mem_append.mp he with h1 | h1
      · exact hfresh e h1 j (by omega) hjl
      · simp at h1
        rw [h1]
        simpa [List.getD_eq_getElem?_getD] using hinj k j le_rfl (by omega) hjl
    case inj =>
      intro i j hi hij hjl
      exact hinj i j (by omega) hij hjl

/-- With pairwise-distinct column names the object built by the zipping
loop is exactly the ordered list of positional pairs. -/
theorem zipObj_eq_of_nodup (columns : List Str) (values : List JSValue)
    (hnd : columns.Nodup) :
    zipObj columns values =
      (List.range columns.length).map
        (fun i => (columns.getD i [], values.get? i)) := by
  unfold zipObj
  rw [List.range_eq_range']
  exact zipObj_go columns values columns.length 0 (by omega) []
    (by intro e he; simp at he)
    (by
      intro i j hi hij hjl
      have hil : i < columns.length := by omega
      rw [List.getD_eq_getElem columns [] hil,
        List.getD_eq_getElem columns [] hjl]
      intro he
      exact absurd (List.Nodup.getElem_inj_iff hnd |>.mp he) (by omega))

/-- C10 (amended): row value arrays are zipped positionally against the
column-name list — for pairwise-distinct column names the row object is
exactly the ordered list of pairs `(columns[i], values[i])`, with missing
values becoming `undefined` — but when the statement has no usable column
list the positional values are NOT carried: the zip over zero columns is
the empty object, as `INSERT INTO t VALUES (1,2)` shows. -/
theorem parseInsertQuery_positionalZip (columns : List Str)
    (values : List JSValue) (hnd : columns.Nodup) :
    zipObj columns values =
      (List.range columns.length).map
        (fun i => (columns.getD i [], values.get? i)) ∧
    zipObj [] values = [] ∧
    parseInsertQuery "INSERT INTO t (a, b) VALUES (1,2),(3)".toList =
      .ok ⟨"t".toList, ["a".toList, "b".toList],
        [[("a".toList, some (.vnum ⟨1, 0⟩)),
          ("b".toList, some (.vnum ⟨2, 0⟩))],
         [("a".toList, some (.vnum ⟨3, 0⟩)), ("b".toList, none)]]⟩ :=
  ⟨zipObj_eq_of_nodup columns values hnd, rfl, by decide⟩

/-- C10 (witness): the amended statement at the column list `[a, b]` and
the one-value row `[1]`. -/
theorem parseInsertQuery_positionalZip_witness :
    (["a".toList, "b".toList] : List Str).Nodup ∧
    zipObj ["a".toList, "b".toList] [.vnum ⟨1, 0⟩] =
      (List.range 2).map (fun i =>
        ((["a".toList, "b".toList] : List Str).getD i [],
          ([JSValue.vnum ⟨1, 0⟩] : List JSValue).get? i)) :=
  ⟨by decide,
    (parseInsertQuery_positionalZip ["a".toList, "b".toList]
      [.vnum ⟨1, 0⟩] (by decide)).1⟩

/-- Setting `Key` flags never changes a column's name or auto-increment
flag. -/
theorem setKeyWhere_map_fieldAI (p : Str → Bool) (fl : List PTColumn) :
    (setKeyWhere p fl).map (fun c => (c.Field, c.AutoIncrement)) =
      fl.map (fun c => (c.Field, c.AutoIncrement)) := by
  unfold setKeyWhere
  rw [List.map_map]
  apply List.map_congr_left
  intro c _
  by_cases h : p c.Field <;> simp [h]

theorem ptStepPkStrip_fieldAI (st : PTState) :
    (ptStepPkStrip st).fieldList.map (fun c => (c.Field, c.AutoIncrement)) =
      st.fieldList.map (fun c => (c.Field, c.AutoIncrement)) := by
  unfold ptStepPkStrip
  split <;> simp [setKeyWhere_map_fieldAI]

theorem ptStepPk2_fieldAI (st : PTState) (f : Str) :
    (ptStepPk2 st f).fieldList.map (fun c => (c.Field, c.AutoIncrement)) =
      st.fieldList.map (fun c => (c.Field, c.AutoIncrement)) := by
  simp only [ptStepPk2]
  split
  · split <;> simp [setKeyWhere_map_fieldAI]
  · simp

theorem ptStepComposite_fieldAI (st : PTState) (line : Str) :
    (ptStepComposite st line).fieldList.map
        (fun c => (c.Field, c.AutoIncrement)) =
      st.fieldList.map (fun c => (c.Field, c.AutoIncrement)) := by
  unfold ptStepComposite
  split
  · split <;> simp [setKeyWhere_map_fieldAI]
  · rfl

theorem ptStepField_fieldAI (st : PTState) (m : Str × Caps) (fdCaps : Caps) :
    (ptStepField st m fdCaps).fieldList.map
        (fun c => (c.Field, c.AutoIncrement)) =
      st.fieldList.map (fun c => (c.Field, c.AutoIncrement)) ∨
    ∃ name,
      (ptStepField st m fdCaps).fieldList.map
          (fun c => (c.Field, c.AutoIncrement)) =
        st.fieldList.map (fun c => (c.Field, c.AutoIncrement)) ++
          [(name, isAutoIncrement (replaceNLRuns m.1))] := by
  simp only [ptStepField]
  split
  · split
    · exact Or.inr ⟨jsTrim ((getCap fdCaps 1).getD []), by simp⟩
    · exact Or.inl (by simp)
  · split
    · split
      · split <;> exact Or.inl (by simp)
      · exact Or.inl rfl
    · exact Or.inl rfl

/-- C4 (amended): the auto-increment classification is per line: one loop
iteration of `parseTable` either leaves the `(Field, AutoIncrement)` view
of the column list unchanged or appends exactly one column whose
`AutoIncrement` flag is `isAutoIncrement` of the match's own line (its text
with line-terminator runs collapsed) — it never depends on previously
detected auto-increment columns or composite primary keys, and the later
`Key`-setting passes never alter it. -/
theorem ptStep_autoIncrement_perLine (st st' : PTState) (m : Str × Caps)
    (h : ptStep st m = some st') :
    st'.fieldList.map (fun c => (c.Field, c.AutoIncrement)) =
      st.fieldList.map (fun c => (c.Field, c.AutoIncrement)) ∨
    ∃ name,
      st'.fieldList.map (fun c => (c.Field, c.AutoIncrement)) =
        st.fieldList.map (fun c => (c.Field, c.AutoIncrement)) ++
          [(name, isAutoIncrement (replaceNLRuns m.1))] := by
  unfold ptStep at h
  split at h
  · exact absurd h (by simp)
  · rename_i a b fdCaps d heq
    have hst : ptStepComposite
        (ptStepPk2 (ptStepPkStrip (ptStepField st m fdCaps)) m.1)
        (replaceNLRuns m.1) = st' := by
      exact Option.some.inj h
    rw [← hst, ptStepComposite_fieldAI, ptStepPk2_fieldAI,
      ptStepPkStrip_fieldAI]
    exact ptStepField_fieldAI st m fdCaps

def ptW_st : PTState := ⟨[], none, [], [], 0⟩

def ptW_m : Str × Caps :=
  ("id INTEGER PRIMARY KEY AUTOINCREMENT,".toList,
   [(1, "id INTEGER PRIMARY KEY AUTOINCREMENT,".toList)])

def ptW_res : PTState :=
  ⟨[⟨"id".toList, "INTEGER".toList, [], true, false, none, true, none, none⟩],
   none, ["id".toList], ["id".toList], 0⟩

/-- C4 (witness): the per-line rule at the `rg_fld` match
`id INTEGER PRIMARY KEY AUTOINCREMENT,` from the empty state. -/
theorem ptStep_autoIncrement_perLine_witness :
    ptStep ptW_st ptW_m = some ptW_res ∧
    (ptW_res.fieldList.map (fun c => (c.Field, c.AutoIncrement)) =
      ptW_st.fieldList.map (fun c => (c.Field, c.AutoIncrement)) ∨
    ∃ name,
      ptW_res.fieldList.map (fun c => (c.Field, c.AutoIncrement)) =
        ptW_st.fieldList.map (fun c => (c.Field, c.AutoIncrement)) ++
          [(name, isAutoIncrement (replaceNLRuns ptW_m.1))]) :=
  ⟨by decide, ptStep_autoIncrement_perLine ptW_st ptW_res ptW_m (by decide)⟩
